import Mathlib

/-!
# Verification of the sage-data-tools resumable extraction pipeline

Shallow embedding of the core of the repository:

* `src/types.ts`            — data model (`TableEntry`, `Manifest`, enums)
* `src/manifest.ts`         — `updateTableEntry`, `updateSummary`, persistence
* `src/db.ts`               — `streamTableRows` push-to-pull adapter
* `src/excel.ts` (streaming variant, the claims cite it inside
  `simple-test.ts` lines 275-325) — chunked sink accounting
* `src/extractor.ts`        — `runExtraction` three-phase state machine

Conventions of the embedding:

* Wall-clock fields (`createdAt`, `updatedAt`, the phase timestamps,
  `durationMs`) are omitted: they are `new Date()` reads that no claim
  depends on.
* File-system effects (`writeFile` inside `saveManifest`,
  `writeSchemaFile`, `writeStatsFile`, the xlsx file itself) are modelled
  by their observable data: each `saveManifest` call appends a
  `Event.persist` snapshot to the run trace.
* External collaborators (the bridge, the failure-decision callback) are
  modelled as a deterministic environment `Env` indexed by invocation
  count, which captures every schedule of outcomes.
* Rows are opaque (`Row := Nat`): the pipeline never inspects row
  contents, only their count and order.
-/

namespace SageDataTools

/-- Row payloads are opaque to the pipeline. -/
abbrev Row := Nat

/-- `TableType` from src/types.ts. -/
inductive TableType
  | TABLE
  | VIEW
deriving DecidableEq, Repr

/-- `ProcessingStatus` from src/types.ts. -/
inductive ProcessingStatus
  | pending
  | discovering
  | discovered
  | extracting
  | extracted
  | validating
  | validated
  | failed
  | skipped
deriving DecidableEq, Repr

/-- `ValidationResult` from src/types.ts. -/
inductive ValidationResult
  | VERIFIED
  | ROW_COUNT_MISMATCH
  | COLUMN_MISMATCH
  | VALIDATION_FAILED
  | NOT_VALIDATED
deriving DecidableEq, Repr

/-- `UserDecision` from src/types.ts (`cont` models the string
literal `continue`, a reserved word in Lean). -/
inductive UserDecision
  | cont
  | retry
  | abort
deriving DecidableEq, Repr

/-- The three modeled phases (`failurePhase` values in src/types.ts). -/
inductive Phase
  | discovery
  | extraction
  | validation
deriving DecidableEq, Repr

/-- `ColumnMetadata` from src/types.ts (the optional `type` and
`nullable` strings are carried nowhere the claims look; kept out). -/
structure ColumnMetadata where
  name : String
  index : Nat
deriving DecidableEq, Repr

/-- `TableEntry` from src/types.ts, without the wall-clock timestamp
fields. -/
structure TableEntry where
  name : String
  type : TableType
  status : ProcessingStatus
  columns : Option (List ColumnMetadata) := none
  columnCount : Option Nat := none
  discoveryError : Option String := none
  rowsExtracted : Option Nat := none
  sheetsCreated : Option Nat := none
  rowsPerSheet : Option (List Nat) := none
  extractionError : Option String := none
  validationResult : Option ValidationResult := none
  sourceRowCount : Option Nat := none
  validationError : Option String := none
  userDecision : Option UserDecision := none
  failurePhase : Option Phase := none
  retryCount : Option Nat := none
deriving DecidableEq, Repr

/-- The `summary` object of `Manifest` from src/types.ts. -/
structure Summary where
  total : Nat
  pending : Nat
  discovered : Nat
  extracted : Nat
  validated : Nat
  failed : Nat
  skipped : Nat
deriving DecidableEq, Repr

/-- `Manifest` from src/types.ts, without the wall-clock
`createdAt`/`updatedAt` strings. -/
structure Manifest where
  version : String
  sourceDatabase : String
  tables : List TableEntry
  summary : Summary
deriving DecidableEq, Repr

/-- `updateSummary` from src/manifest.ts: the summary is recomputed
from the table list on every persist. -/
def updateSummary (tables : List TableEntry) : Summary :=
  { total := tables.length
    pending := (tables.filter (fun t => t.status = .pending)).length
    discovered := (tables.filter (fun t =>
      t.status = .discovered ∨ t.status = .extracting ∨ t.status = .extracted ∨
      t.status = .validating ∨ t.status = .validated)).length
    extracted := (tables.filter (fun t =>
      t.status = .extracted ∨ t.status = .validating ∨ t.status = .validated)).length
    validated := (tables.filter (fun t => t.status = .validated)).length
    failed := (tables.filter (fun t => t.status = .failed)).length
    skipped := (tables.filter (fun t => t.status = .skipped)).length }

/-- The list-level body of `updateTableEntry` from src/manifest.ts:
`manifest.tables.find(t => t.name === tableName)` locates the FIRST
entry with the given name and `Object.assign` mutates it in place; no
match is a silent no-op.  The `Partial<TableEntry>` update object is
modelled as the update function `f`. -/
def updateFirst (l : List TableEntry) (tableName : String)
    (f : TableEntry → TableEntry) : List TableEntry :=
  match l with
  | [] => []
  | e :: rest =>
      if e.name = tableName then f e :: rest
      else e :: updateFirst rest tableName f

/-- `updateTableEntry` from src/manifest.ts lines 56-65. -/
def updateTableEntry (m : Manifest) (tableName : String)
    (f : TableEntry → TableEntry) : Manifest :=
  { m with tables := updateFirst m.tables tableName f }

/-- A fixed default for out-of-range index reads (never reached in the
runs the theorems describe). -/
def defaultEntry : TableEntry :=
  { name := "", type := .TABLE, status := .pending }

/-- Reading `manifest.tables[i]`: the orchestrator's `table` loop
variable aliases the entry object at position `i`, so every read of
`table.x` in src/extractor.ts is a read of the current entry at that
index. -/
def readEntry (m : Manifest) (i : Nat) : TableEntry :=
  m.tables.getD i defaultEntry

/-!
## src/db.ts — `streamTableRows` push-to-pull adapter

The generator keeps a holding buffer `rows`, a single `resolveNext`
waiter slot, and `done`/`error` flags.  We model the interleaving of
bridge notifications (`request.on('row' | 'error' | 'done')`) and
consumer pulls as an explicit event schedule.

The `resolveNext` slot has three observable states in the source:
`null` (.absent), set with its promise still pending (.pendingW — a
consumer pull is parked), and set with its promise already settled
(.stale — the `'error'`/`'done'` handlers resolve the parked promise
but never clear `resolveNext`, so a later `'row'` notification calls
the settled resolver, a no-op, and then nulls the slot, dropping the
row). -/

/-- State of the `resolveNext` slot in `streamTableRows`. -/
inductive RNext
  | absent
  | pendingW
  | stale
deriving DecidableEq, Repr

/-- The mutable locals of one `streamTableRows` call
(src/db.ts lines 91-94) plus a `finished` flag marking that the
generator has returned or thrown. -/
structure StreamState where
  buf : List Row
  rnext : RNext
  doneFlag : Bool
  errFlag : Bool
  finished : Bool
deriving DecidableEq, Repr

/-- Fresh generator state (src/db.ts lines 91-94). -/
def initStreamState : StreamState :=
  { buf := [], rnext := .absent, doneFlag := false, errFlag := false, finished := false }

/-- One schedule item: a bridge notification or a consumer pull. -/
inductive BridgeEvent
  | rowNote (r : Row)
  | errorNote
  | doneNote
  | pull
deriving DecidableEq, Repr

/-- What the consumer observes from a pull: a yielded element (the
source can yield `undefined`, modelled as `none`), a raised error, or
natural completion. -/
inductive StreamOut
  | yieldRow (r : Option Row)
  | raise
  | complete
deriving DecidableEq, Repr

/-- One step of the adapter (src/db.ts lines 96-142).

* `'row'` handler: hand to a parked waiter if `resolveNext` is set and
  pending (resolving with `{value: row, done: false}`, which the parked
  pull yields); if the slot is stale the resolve is a settled-promise
  no-op and the row is dropped; otherwise buffer the row.
* `'error'`/`'done'` handlers: set the flag; if `resolveNext` is set
  and pending, resolve it with `done: true`, which the parked closure
  turns into `resolve(undefined)` — the parked pull yields `undefined`.
  `resolveNext` is NOT cleared (it becomes stale).
* `pull` (one iteration of the `while (true)` loop, lines 119-141):
  `error` is checked first and thrown; else a buffered row is yielded;
  else `done` returns; else the pull parks.  A pull while a pull is
  already parked cannot occur for the sequential consumer and is a
  no-op, as is a pull after the generator finished. -/
def streamStep (s : StreamState) : BridgeEvent → StreamState × List StreamOut
  | .rowNote r =>
      match s.rnext with
      | .pendingW => ({ s with rnext := .absent }, [.yieldRow (some r)])
      | .stale => ({ s with rnext := .absent }, [])
      | .absent => ({ s with buf := s.buf ++ [r] }, [])
  | .errorNote =>
      match s.rnext with
      | .pendingW => ({ s with errFlag := true, rnext := .stale }, [.yieldRow none])
      | _ => ({ s with errFlag := true }, [])
  | .doneNote =>
      match s.rnext with
      | .pendingW => ({ s with doneFlag := true, rnext := .stale }, [.yieldRow none])
      | _ => ({ s with doneFlag := true }, [])
  | .pull =>
      if s.finished then (s, [])
      else if s.rnext = .pendingW then (s, [])
      else if s.errFlag then ({ s with finished := true }, [.raise])
      else
        match s.buf with
        | r :: rest => ({ s with buf := rest }, [.yieldRow (some r)])
        | [] =>
            if s.doneFlag then ({ s with finished := true }, [.complete])
            else ({ s with rnext := .pendingW }, [])

/-- Run a whole schedule from the fresh state, collecting everything
the consumer observes in order. -/
def streamRun (evs : List BridgeEvent) : List StreamOut :=
  (evs.foldl
    (fun (p : StreamState × List StreamOut) ev =>
      let q := streamStep p.1 ev
      (q.1, p.2 ++ q.2))
    (initStreamState, [])).2

/-!
## src/excel.ts — chunked sink accounting (streaming writer variant,
cited by the claims at simple-test.ts lines 275-325)

Only the accounting state is modelled: the ExcelJS workbook object,
sheet styling, cell-value coercion and the xlsx file write are pure
output formatting that no claim inspects.  `currentSheet : Worksheet |
null` is modelled by the flag `hasCurrentSheet`. -/

/-- The accounting fields of `ExcelWriterState`. -/
structure ExcelWriterState where
  tableName : String
  sheetIndex : Nat
  rowsInCurrentSheet : Nat
  totalRowsWritten : Nat
  rowsPerSheet : List Nat
  columns : List ColumnMetadata
  hasCurrentSheet : Bool
deriving DecidableEq, Repr

/-- `createExcelWriter`. -/
def createExcelWriter (tableName : String) (columns : List ColumnMetadata) :
    ExcelWriterState :=
  { tableName := tableName
    sheetIndex := 0
    rowsInCurrentSheet := 0
    totalRowsWritten := 0
    rowsPerSheet := []
    columns := columns
    hasCurrentSheet := false }

/-- `createNewSheet`: record the previous sheet's final count if it
held any rows, then open a fresh sheet (the header row is styling, not
counted in `rowsInCurrentSheet`). -/
def createNewSheet (s : ExcelWriterState) : ExcelWriterState :=
  let s1 :=
    if s.hasCurrentSheet ∧ 0 < s.rowsInCurrentSheet then
      { s with rowsPerSheet := s.rowsPerSheet ++ [s.rowsInCurrentSheet] }
    else s
  { s1 with
    sheetIndex := s1.sheetIndex + 1
    rowsInCurrentSheet := 0
    hasCurrentSheet := true }

/-- `writeRow` with the configured `config.xlsx.maxRowsPerSheet` passed
explicitly as `maxRows`.  The row payload is not inspected by the
accounting. -/
def writeRow (maxRows : Nat) (s : ExcelWriterState) (_row : Row) :
    ExcelWriterState :=
  let s1 :=
    if ¬ s.hasCurrentSheet ∨ maxRows ≤ s.rowsInCurrentSheet then
      createNewSheet s
    else s
  { s1 with
    rowsInCurrentSheet := s1.rowsInCurrentSheet + 1
    totalRowsWritten := s1.totalRowsWritten + 1 }

/-- The stats object returned by `finalizeExcel` (`ExtractionStats`
minus the wall-clock fields and the always-empty `warnings`). -/
structure ExtractionStats where
  tableName : String
  rowsWritten : Nat
  sheetCount : Nat
  rowsPerSheet : List Nat
deriving DecidableEq, Repr

/-- `finalizeExcel`: commit the final sheet's count and report totals. -/
def finalizeExcel (s : ExcelWriterState) : ExtractionStats :=
  let s1 :=
    if s.hasCurrentSheet ∧ 0 < s.rowsInCurrentSheet then
      { s with rowsPerSheet := s.rowsPerSheet ++ [s.rowsInCurrentSheet] }
    else s
  { tableName := s1.tableName
    rowsWritten := s1.totalRowsWritten
    sheetCount := s1.sheetIndex
    rowsPerSheet := s1.rowsPerSheet }

/-- Writing a whole row sequence (the `for await` body of the
extraction phase restricted to the sink). -/
def writeRows (maxRows : Nat) (s : ExcelWriterState) (rows : List Row) :
    ExcelWriterState :=
  rows.foldl (writeRow maxRows) s

/-!
## src/extractor.ts — `runExtraction`

The orchestrator's external collaborators are captured in `Env`, each
indexed by a global invocation counter so every deterministic schedule
of outcomes is expressible:

* `smoke k t`    — outcome of the k-th `smokeTestTable` call,
* `stream k t`   — outcome of the k-th `streamTableRows` read: the rows
  delivered in order, then either clean end-of-data (`failure = none`)
  or a raised error,
* `rowCount k t` — outcome of the k-th `getTableRowCount` call,
* `onFailure k record` — answer of the k-th failure-decision
  invocation, given the full current record as the source passes it,
* `unexpected k` — an optional exception raised outside the three
  phases, modelled at the one remaining suspension point of the loop
  body (the inter-entity sleep / the persist and observer calls after
  the last phase), exercising the catch at extractor.ts line 235,
* `maxRows`      — `config.xlsx.maxRowsPerSheet`.

`connect`/`disconnect` and the observer callbacks
(`onPhaseChange`, `onProgress`) are IO; the trace records
`saveManifest` snapshots, `onPhaseChange` events, failure-collaborator
invocations and answers, and `disconnect` calls. -/

/-- One `streamTableRows` read as consumed by the extraction loop. -/
structure StreamOutcome where
  rows : List Row
  failure : Option String
deriving DecidableEq, Repr

/-- Deterministic environment: the bridge, the collaborator and the
configuration. -/
structure Env where
  enumerate : List (String × TableType)
  smoke : Nat → String → Except String (List ColumnMetadata)
  stream : Nat → String → StreamOutcome
  rowCount : Nat → String → Except String Nat
  onFailure : Nat → TableEntry → UserDecision
  unexpected : Nat → Option String
  maxRows : Nat

/-- Invocation counters for the `Env` oracles. -/
structure Ctr where
  smoke : Nat
  stream : Nat
  rowCount : Nat
  failure : Nat
  unexpected : Nat
deriving DecidableEq, Repr

/-- All counters start at zero. -/
def initCtr : Ctr :=
  { smoke := 0, stream := 0, rowCount := 0, failure := 0, unexpected := 0 }

/-- Observable run events, in program order. -/
inductive Event
  | persist (m : Manifest)
  | phase (tableName : String) (ph : Phase)
  | failureCall (record : TableEntry)
  | decision (d : UserDecision)
  | disconnect
deriving DecidableEq, Repr

/-- The orchestrator's in-memory state: the (aliased, mutable) manifest
and the oracle counters. -/
structure StepState where
  manifest : Manifest
  ctr : Ctr
deriving DecidableEq, Repr

/-- `saveManifest` recomputes the summary in place before writing
(src/manifest.ts lines 34-38); `updatedAt` is wall clock and omitted. -/
def applySummary (m : Manifest) : Manifest :=
  { m with summary := updateSummary m.tables }

/-- One `saveManifest` call: the summarized manifest and its persist
event. -/
def persistM (m : Manifest) : Manifest × List Event :=
  (applySummary m, [Event.persist (applySummary m)])

/-- Exit mode of one pass of the per-entity `while (shouldRetry)` body. -/
inductive IterOut
  | finish
  | redo
  | aborted
deriving DecidableEq, Repr

/-- The failure-decision protocol shared verbatim by the three phase
handlers (extractor.ts lines 67-84, 156-173, 212-229): call
`onFailure` with the live record, persist the answer, then either
bump `retryCount` and loop, or disconnect and abort, or mark skipped
and move on. -/
def handleFailure (env : Env) (s : StepState) (i : Nat) :
    StepState × List Event × IterOut :=
  let tbl := readEntry s.manifest i
  let d := env.onFailure s.ctr.failure tbl
  let c2 := { s.ctr with failure := s.ctr.failure + 1 }
  let m1 := updateTableEntry s.manifest tbl.name
    (fun e => { e with userDecision := some d })
  let p1 := persistM m1
  match d with
  | .retry =>
      let m3 := updateTableEntry p1.1 tbl.name
        (fun e => { e with retryCount := some ((readEntry p1.1 i).retryCount.getD 0 + 1) })
      ({ manifest := m3, ctr := c2 },
        [Event.failureCall tbl, Event.decision d] ++ p1.2, .redo)
  | .abort =>
      ({ manifest := p1.1, ctr := c2 },
        [Event.failureCall tbl, Event.decision d] ++ p1.2 ++ [Event.disconnect],
        .aborted)
  | .cont =>
      let m3 := updateTableEntry p1.1 tbl.name
        (fun e => { e with status := .skipped })
      let p2 := persistM m3
      ({ manifest := p2.1, ctr := c2 },
        [Event.failureCall tbl, Event.decision d] ++ p1.2 ++ p2.2, .finish)

/-- Phase 0, discovery (extractor.ts lines 51-95).  Admission: status
in {pending, failed} or columns absent.  Returns `none` when control
falls through to the next phase. -/
def discoveryPhase (env : Env) (s : StepState) (i : Nat) :
    StepState × List Event × Option IterOut :=
  let tbl := readEntry s.manifest i
  if tbl.status = .pending ∨ tbl.status = .failed ∨ tbl.columns = none then
    let m1 := updateTableEntry s.manifest tbl.name
      (fun e => { e with status := .discovering })
    let p1 := persistM m1
    let ev0 := [Event.phase tbl.name .discovery] ++ p1.2
    let c1 := { s.ctr with smoke := s.ctr.smoke + 1 }
    match env.smoke s.ctr.smoke tbl.name with
    | .error msg =>
        let m2 := updateTableEntry p1.1 tbl.name
          (fun e => { e with
            status := .failed
            failurePhase := some .discovery
            discoveryError := some msg })
        let p2 := persistM m2
        let h := handleFailure env { manifest := p2.1, ctr := c1 } i
        (h.1, ev0 ++ p2.2 ++ h.2.1, some h.2.2)
    | .ok cols =>
        let m2 := updateTableEntry p1.1 tbl.name
          (fun e => { e with
            status := .discovered
            columns := some cols
            columnCount := some cols.length })
        let p2 := persistM m2
        ({ manifest := p2.1, ctr := c1 }, ev0 ++ p2.2, none)
  else (s, [], none)

/-- The `for await` body of the extraction phase (extractor.ts lines
112-124): write each row to the sink and, every 1000 rows, update the
in-memory manifest with the running count and sheet index (progress
callback only — no `saveManifest` here). -/
def extractLoop (maxRows : Nat) (tableName : String) :
    List Row → Manifest → ExcelWriterState → Nat →
    Manifest × ExcelWriterState × Nat
  | [], m, w, rc => (m, w, rc)
  | r :: rest, m, w, rc =>
      let w1 := writeRow maxRows w r
      let rc1 := rc + 1
      let m1 :=
        if rc1 % 1000 = 0 then
          updateTableEntry m tableName
            (fun e => { e with
              rowsExtracted := some rc1
              sheetsCreated := some w1.sheetIndex })
        else m
      extractLoop maxRows tableName rest m1 w1 rc1

/-- Phase 1, extraction (extractor.ts lines 97-175).  Admission:
status = discovered, or failed with failurePhase = extraction. -/
def extractionPhase (env : Env) (s : StepState) (i : Nat) :
    StepState × List Event × Option IterOut :=
  let tbl := readEntry s.manifest i
  if tbl.status = .discovered ∨
      (tbl.status = .failed ∧ tbl.failurePhase = some .extraction) then
    let m1 := updateTableEntry s.manifest tbl.name
      (fun e => { e with status := .extracting })
    let p1 := persistM m1
    let ev0 := [Event.phase tbl.name .extraction] ++ p1.2
    let c1 := { s.ctr with stream := s.ctr.stream + 1 }
    let cols := (readEntry p1.1 i).columns.getD []
    let oc := env.stream s.ctr.stream tbl.name
    let writer := createExcelWriter tbl.name cols
    let fres := extractLoop env.maxRows tbl.name oc.rows p1.1 writer 0
    match oc.failure with
    | none =>
        let stats := finalizeExcel fres.2.1
        let m2 := updateTableEntry fres.1 tbl.name
          (fun e => { e with
            status := .extracted
            rowsExtracted := some stats.rowsWritten
            sheetsCreated := some stats.sheetCount
            rowsPerSheet := some stats.rowsPerSheet })
        let p2 := persistM m2
        ({ manifest := p2.1, ctr := c1 }, ev0 ++ p2.2, none)
    | some msg =>
        let m2 := updateTableEntry fres.1 tbl.name
          (fun e => { e with
            status := .failed
            failurePhase := some .extraction
            extractionError := some msg })
        let p2 := persistM m2
        let h := handleFailure env { manifest := p2.1, ctr := c1 } i
        (h.1, ev0 ++ p2.2 ++ h.2.1, some h.2.2)
  else (s, [], none)

/-- Phase 2, validation (extractor.ts lines 178-231).  Admission:
status = extracted, or failed with failurePhase = validation.  On a
successful count query the result is VERIFIED exactly when the source
count equals `table.rowsExtracted || 0`, the status advances to
validated in both cases, and the failure collaborator is not
consulted. -/
def validationPhase (env : Env) (s : StepState) (i : Nat) :
    StepState × List Event × Option IterOut :=
  let tbl := readEntry s.manifest i
  if tbl.status = .extracted ∨
      (tbl.status = .failed ∧ tbl.failurePhase = some .validation) then
    let m1 := updateTableEntry s.manifest tbl.name
      (fun e => { e with status := .validating })
    let p1 := persistM m1
    let ev0 := [Event.phase tbl.name .validation] ++ p1.2
    let c1 := { s.ctr with rowCount := s.ctr.rowCount + 1 }
    match env.rowCount s.ctr.rowCount tbl.name with
    | .ok n =>
        let extractedCount := (readEntry p1.1 i).rowsExtracted.getD 0
        let vr : ValidationResult :=
          if n ≠ extractedCount then .ROW_COUNT_MISMATCH else .VERIFIED
        let m2 := updateTableEntry p1.1 tbl.name
          (fun e => { e with
            status := .validated
            validationResult := some vr
            sourceRowCount := some n })
        let p2 := persistM m2
        ({ manifest := p2.1, ctr := c1 }, ev0 ++ p2.2, none)
    | .error msg =>
        let m2 := updateTableEntry p1.1 tbl.name
          (fun e => { e with
            status := .failed
            failurePhase := some .validation
            validationError := some msg })
        let p2 := persistM m2
        let h := handleFailure env { manifest := p2.1, ctr := c1 } i
        (h.1, ev0 ++ p2.2 ++ h.2.1, some h.2.2)
  else (s, [], none)

/-- The outer catch (extractor.ts lines 235-253): an exception outside
the three phases marks the entity failed (in the `extractionError`
field, with no `failurePhase`), persists, consults the collaborator,
and — unlike the three phase handlers — persists no `userDecision` and
increments no `retryCount`. -/
def catchAll (env : Env) (s : StepState) (i : Nat) (msg : String) :
    StepState × List Event × IterOut :=
  let tbl := readEntry s.manifest i
  let m1 := updateTableEntry s.manifest tbl.name
    (fun e => { e with status := .failed, extractionError := some msg })
  let p1 := persistM m1
  let tbl2 := readEntry p1.1 i
  let d := env.onFailure s.ctr.failure tbl2
  let c1 := { s.ctr with failure := s.ctr.failure + 1 }
  match d with
  | .abort =>
      ({ manifest := p1.1, ctr := c1 },
        p1.2 ++ [Event.failureCall tbl2, Event.decision d, Event.disconnect],
        .aborted)
  | .retry =>
      let p2 := persistM p1.1
      ({ manifest := p2.1, ctr := c1 },
        p1.2 ++ [Event.failureCall tbl2, Event.decision d] ++ p2.2, .redo)
  | .cont =>
      let m2 := updateTableEntry p1.1 tbl.name
        (fun e => { e with status := .skipped })
      let p2 := persistM m2
      ({ manifest := p2.1, ctr := c1 },
        p1.2 ++ [Event.failureCall tbl2, Event.decision d] ++ p2.2, .finish)

/-- One pass of the per-entity `while (shouldRetry)` body (extractor.ts
lines 47-253): the three phase segments in order, then the inter-entity
sleep, with the outer catch taking over when an injected unclassified
exception fires there. -/
def iterEntity (env : Env) (s : StepState) (i : Nat) :
    StepState × List Event × IterOut :=
  let d1 := discoveryPhase env s i
  match d1.2.2 with
  | some out => (d1.1, d1.2.1, out)
  | none =>
    let d2 := extractionPhase env d1.1 i
    match d2.2.2 with
    | some out => (d2.1, d1.2.1 ++ d2.2.1, out)
    | none =>
      let d3 := validationPhase env d2.1 i
      match d3.2.2 with
      | some out => (d3.1, d1.2.1 ++ d2.2.1 ++ d3.2.1, out)
      | none =>
        let s3 := d3.1
        let u := env.unexpected s3.ctr.unexpected
        let s4 : StepState :=
          { s3 with ctr := { s3.ctr with unexpected := s3.ctr.unexpected + 1 } }
        match u with
        | none => (s4, d1.2.1 ++ d2.2.1 ++ d3.2.1, .finish)
        | some msg =>
            let h := catchAll env s4 i msg
            (h.1, d1.2.1 ++ d2.2.1 ++ d3.2.1 ++ h.2.1, h.2.2)

/-- The per-entity retry loop, fuel-bounded (the source loops
unboundedly by design; `none` in the result means the fuel ran out
with a retry still pending).  `some true` = aborted, `some false` =
moved past this entity. -/
def processEntity (env : Env) (fuel : Nat) (s : StepState) (i : Nat) :
    StepState × List Event × Option Bool :=
  match fuel with
  | 0 => (s, [], none)
  | Nat.succ fuel2 =>
      let it := iterEntity env s i
      match it.2.2 with
      | .finish => (it.1, it.2.1, some false)
      | .aborted => (it.1, it.2.1, some true)
      | .redo =>
          let r := processEntity env fuel2 it.1 i
          (r.1, it.2.1 ++ r.2.1, r.2.2)

/-- The `for (const table of manifest.tables)` loop (extractor.ts lines
40-255): entities already validated or skipped are passed over; an
abort stops the run immediately. -/
def processTables (env : Env) (fuel : Nat) :
    StepState → List Nat → StepState × List Event × Option Bool
  | s, [] => (s, [], some false)
  | s, i :: rest =>
      let tbl := readEntry s.manifest i
      if tbl.status = .validated ∨ tbl.status = .skipped then
        processTables env fuel s rest
      else
        let pe := processEntity env fuel s i
        match pe.2.2 with
        | some false =>
            let r := processTables env fuel pe.1 rest
            (r.1, pe.2.1 ++ r.2.1, r.2.2)
        | some true => (pe.1, pe.2.1, some true)
        | none => (pe.1, pe.2.1, none)

/-- One-time enumeration (extractor.ts lines 27-35): an empty manifest
is populated from the catalog with all-pending entries and persisted. -/
def enumPhase (env : Env) (m0 : Manifest) : Manifest × List Event :=
  if m0.tables.length = 0 then
    let m1 := { m0 with
      tables := env.enumerate.map
        (fun p => { name := p.1, type := p.2, status := .pending }) }
    persistM m1
  else (m0, [])

/-- Result of a run: final manifest, observable trace, and whether it
ended by abort (`some true`), normally (`some false`), or ran out of
fuel mid-retry (`none`). -/
structure RunResult where
  manifest : Manifest
  trace : List Event
  outcome : Option Bool
deriving DecidableEq, Repr

/-- `runExtraction` (extractor.ts lines 15-259), from the
already-loaded manifest `m0`. -/
def runExtraction (env : Env) (fuel : Nat) (m0 : Manifest) : RunResult :=
  let en := enumPhase env m0
  let s0 : StepState := { manifest := en.1, ctr := initCtr }
  let r := processTables env fuel s0 (List.range en.1.tables.length)
  match r.2.2 with
  | some false =>
      { manifest := r.1.manifest
        trace := en.2 ++ r.2.1 ++ [Event.disconnect]
        outcome := some false }
  | o => { manifest := r.1.manifest, trace := en.2 ++ r.2.1, outcome := o }

/-!
## Concrete fixtures used by witnesses and counterexamples
-/

/-- A one-column schema. -/
def col1 : ColumnMetadata := { name := "c", index := 0 }

/-- A fresh, empty manifest (as `createEmptyManifest` builds it, minus
wall-clock fields). -/
def mEmpty : Manifest :=
  { version := "1.0.0"
    sourceDatabase := "db"
    tables := []
    summary :=
      { total := 0, pending := 0, discovered := 0, extracted := 0
        validated := 0, failed := 0, skipped := 0 } }

/-- Baseline benign environment: one table, every probe/stream/count
succeeds, the collaborator answers continue, no stray exceptions. -/
def envBase : Env :=
  { enumerate := [("T1", TableType.TABLE)]
    smoke := fun _ _ => Except.ok [col1]
    stream := fun _ _ => { rows := [], failure := none }
    rowCount := fun _ _ => Except.ok 0
    onFailure := fun _ _ => UserDecision.cont
    unexpected := fun _ => none
    maxRows := 1000000 }

/-- Concrete entries for the C10 witness. -/
def entA : TableEntry := { name := "A", type := .TABLE, status := .pending }

/-- Second concrete entry for the C10 witness. -/
def entB : TableEntry := { name := "B", type := .VIEW, status := .discovered }

/-- Two-entry manifest for the C10 witness. -/
def mAB : Manifest := { mEmpty with tables := [entA, entB] }

/-!
## C3 — chunked sink row conservation
-/

/-- Invariant of the writer state after `n` rows have been written with
segment limit `K`: the closed segments each hold exactly `K` rows and
the open segment holds the remainder. -/
def writerInv (K n : Nat) (s : ExcelWriterState) : Prop :=
  s.totalRowsWritten = n ∧
  (n = 0 → s.hasCurrentSheet = false ∧ s.sheetIndex = 0 ∧
    s.rowsInCurrentSheet = 0 ∧ s.rowsPerSheet = []) ∧
  (0 < n → s.hasCurrentSheet = true ∧ 1 ≤ s.rowsInCurrentSheet ∧
    s.rowsInCurrentSheet ≤ K ∧ 1 ≤ s.sheetIndex ∧
    n = K * (s.sheetIndex - 1) + s.rowsInCurrentSheet ∧
    s.rowsPerSheet = List.replicate (s.sheetIndex - 1) K)

/-!
## C1 — resumability of a restarted run
-/

/-- An entity whose record was persisted mid-extraction: the source
persists `status = extracting` before streaming (extractor.ts lines
101-105), so this is exactly the state a kill during streaming leaves
behind; discovery had completed, so `columns` is present. -/
def entStuck : TableEntry :=
  { name := "T1"
    type := TableType.TABLE
    status := ProcessingStatus.extracting
    columns := some [col1] }

/-- Restart manifest holding `entStuck`. -/
def mStuck : Manifest := { mEmpty with tables := [entStuck] }

/-- An entity persisted as failed during validation. -/
def entFailedVal : TableEntry :=
  { name := "T1"
    type := TableType.TABLE
    status := ProcessingStatus.failed
    failurePhase := some Phase.validation
    columns := some [col1]
    rowsExtracted := some 0 }

/-- Restart manifest holding `entFailedVal`. -/
def mFailedVal : Manifest := { mEmpty with tables := [entFailedVal] }

/-!
## C5 — retry protocol
-/

/-- Environment in which everything succeeds but an unclassified
exception fires at the first inter-entity sleep, and the collaborator
always answers retry. -/
def envUnexpectedRetry : Env :=
  { envBase with
    unexpected := fun k => if k = 0 then some "boom" else none
    onFailure := fun _ _ => UserDecision.retry }

/-- Environment realizing the spec's retry scenario: discovery fails on
its first two probes and succeeds from the third on; the collaborator
always answers retry; extraction and validation succeed. -/
def envDiscoveryFlaky : Env :=
  { envBase with
    smoke := fun k _ =>
      if k < 2 then Except.error "probe failed" else Except.ok [col1]
    onFailure := fun _ _ => UserDecision.retry }

/-!
## C8 — partial `rowsExtracted` checkpoints
-/

/-- Environment whose stream delivers exactly 1000 rows and then
raises. -/
def envStreamFail1000 : Env :=
  { envBase with
    stream := fun _ _ => { rows := List.replicate 1000 0, failure := some "net" } }

/-!
## C9 — terminal statuses
-/

/-- Environment in which everything succeeds but an unclassified
exception fires at the first inter-entity sleep, answered continue. -/
def envUnexpectedCont : Env :=
  { envBase with unexpected := fun k => if k = 0 then some "x" else none }

/-- An entity with finished extraction awaiting validation. -/
def entExtracted : TableEntry :=
  { name := "T1"
    type := TableType.TABLE
    status := ProcessingStatus.extracted
    columns := some [col1]
    rowsExtracted := some 5 }

/-- One-entry manifest for the C4 witness. -/
def mExtracted : Manifest := { mEmpty with tables := [entExtracted] }

/-- Step state holding `mExtracted` with fresh counters. -/
def sExtracted : StepState := { manifest := mExtracted, ctr := initCtr }

/-- Environment whose count query answers 7. -/
def envCount7 : Env := { envBase with rowCount := fun _ _ => Except.ok 7 }

/-- An entity recorded as failed during discovery. -/
def entFailedDisc : TableEntry :=
  { name := "T1"
    type := TableType.TABLE
    status := ProcessingStatus.failed
    failurePhase := some Phase.discovery }

/-- Step state holding the failed entity. -/
def sFailedDisc : StepState :=
  { manifest := { mEmpty with tables := [entFailedDisc] }, ctr := initCtr }

/-- Environment whose collaborator always answers retry. -/
def envRetryAlways : Env :=
  { envBase with onFailure := fun _ _ => UserDecision.retry }

/-- A discovered entity ready for extraction. -/
def entDiscovered : TableEntry :=
  { name := "T1"
    type := TableType.TABLE
    status := ProcessingStatus.discovered
    columns := some [col1] }

/-- Step state holding the discovered entity. -/
def sDiscovered : StepState :=
  { manifest := { mEmpty with tables := [entDiscovered] }, ctr := initCtr }

/-- Environment whose stream delivers two rows then ends cleanly. -/
def envRows2 : Env :=
  { envBase with stream := fun _ _ => { rows := [5, 6], failure := none } }

/-!
## C7 — abort semantics

Frame reasoning: one entity's processing touches no entry of a
different name, an abort decision ends the run immediately, and the
last observable event of an aborted entity is the `disconnect`.
-/

/-- Frame pair on table lists: names are unchanged everywhere, and
entries named differently from `nm` are untouched. -/
def framePairT (l l2 : List TableEntry) (nm : String) : Prop :=
  l2.map TableEntry.name = l.map TableEntry.name ∧
  ∀ j, (l.getD j defaultEntry).name ≠ nm →
    l2.getD j defaultEntry = l.getD j defaultEntry

/-- Two pending entities for the C7 witness. -/
def mTwoPending : Manifest :=
  { mEmpty with tables :=
      [{ name := "T1", type := TableType.TABLE, status := ProcessingStatus.pending },
       { name := "T2", type := TableType.VIEW, status := ProcessingStatus.pending }] }

/-- Step state over the two pending entities. -/
def sTwoPending : StepState := { manifest := mTwoPending, ctr := initCtr }

/-- Environment whose probe always fails and whose collaborator
answers abort. -/
def envAbort : Env :=
  { envBase with
    smoke := fun _ _ => Except.error "bad"
    onFailure := fun _ _ => UserDecision.abort }

/-!
## C9 — terminal statuses, amended

`statusByName` reads the status of the first entry with a given name —
the same first-match discipline `updateTableEntry` uses.  `okDelta l δ
l2` says: along the event delta `δ` leading from table list `l` to
`l2`, every persisted snapshot (and the final list) preserves every
terminal status, and no phase event is emitted for an entity that is
terminal at that point.
-/

/-- The terminal statuses of spec section 3. -/
def termStatus (st : ProcessingStatus) : Prop :=
  st = ProcessingStatus.validated ∨ st = ProcessingStatus.skipped

instance (st : ProcessingStatus) : Decidable (termStatus st) := by
  unfold termStatus
  infer_instance

/-- Status of the first entry with the given name. -/
def statusByName : List TableEntry → String → Option ProcessingStatus
  | [], _ => none
  | e :: rest, nm =>
      if e.name = nm then some e.status else statusByName rest nm

/-- `l2` keeps every terminal status `l` has. -/
def presTerm (l l2 : List TableEntry) : Prop :=
  ∀ nm st, termStatus st → statusByName l nm = some st →
    statusByName l2 nm = some st

/-- Terminal-status discipline along an event delta. -/
def okDelta : List TableEntry → List Event → List TableEntry → Prop
  | l, [], l2 => presTerm l l2
  | l, Event.persist p :: δ, l2 => presTerm l p.tables ∧ okDelta p.tables δ l2
  | l, Event.phase nm _ :: δ, l2 =>
      (∀ st, termStatus st → statusByName l nm ≠ some st) ∧ okDelta l δ l2
  | l, Event.failureCall _ :: δ, l2 => okDelta l δ l2
  | l, Event.decision _ :: δ, l2 => okDelta l δ l2
  | l, Event.disconnect :: δ, l2 => okDelta l δ l2

/-- The status of the entity `nm` in the manifest persisted at trace
position `k` (none when position `k` is not a persist or `nm` is not
present there). -/
def persistStatusAt (tr : List Event) (k : Nat) (nm : String) :
    Option ProcessingStatus :=
  match tr.get? k with
  | some (Event.persist m) => statusByName m.tables nm
  | _ => none

theorem updateFirst_length (l : List TableEntry) (n : String)
    (f : TableEntry → TableEntry) : (updateFirst l n f).length = l.length := by
  induction l with
  | nil => rfl
  | cons e rest ih =>
      simp only [updateFirst]
      split
      · simp
      · simp [ih]

theorem updateFirst_of_not_mem (l : List TableEntry) (n : String)
    (f : TableEntry → TableEntry) (h : ∀ e ∈ l, e.name ≠ n) :
    updateFirst l n f = l := by
  induction l with
  | nil => rfl
  | cons e rest ih =>
      simp only [updateFirst]
      rw [if_neg (h e (by simp))]
      rw [ih (fun x hx => h x (by simp [hx]))]

theorem updateFirst_first_match (l1 : List TableEntry) (e : TableEntry)
    (l2 : List TableEntry) (n : String) (f : TableEntry → TableEntry)
    (h1 : ∀ x ∈ l1, x.name ≠ n) (h2 : e.name = n) :
    updateFirst (l1 ++ e :: l2) n f = l1 ++ f e :: l2 := by
  induction l1 with
  | nil => simp [updateFirst, h2]
  | cons x rest ih =>
      simp only [List.cons_append, updateFirst]
      rw [if_neg (h1 x (by simp))]
      simp only [List.append_eq]
      rw [ih (fun y hy => h1 y (by simp [hy]))]

/-!
## C10 — `updateTableEntry` frame property
-/

/-- C10: `updateTableEntry` mutates only the first entry whose name
equals the given name, leaving every other entry and every other
manifest field unchanged; with no matching entry the manifest is left
entirely unchanged (a silent no-op). -/
theorem c10_update_table_entry_frame (m : Manifest) (tableName : String)
    (f : TableEntry → TableEntry) :
    (updateTableEntry m tableName f).version = m.version ∧
    (updateTableEntry m tableName f).sourceDatabase = m.sourceDatabase ∧
    (updateTableEntry m tableName f).summary = m.summary ∧
    (updateTableEntry m tableName f).tables.length = m.tables.length ∧
    ((∀ e ∈ m.tables, e.name ≠ tableName) → updateTableEntry m tableName f = m) ∧
    (∀ l1 e l2, m.tables = l1 ++ e :: l2 → (∀ x ∈ l1, x.name ≠ tableName) →
      e.name = tableName →
      (updateTableEntry m tableName f).tables = l1 ++ f e :: l2) := by
  refine ⟨rfl, rfl, rfl, updateFirst_length m.tables tableName f, ?_, ?_⟩
  · intro h
    show { m with tables := updateFirst m.tables tableName f } = m
    rw [updateFirst_of_not_mem m.tables tableName f h]
  · intro l1 e l2 hm h1 h2
    show updateFirst m.tables tableName f = l1 ++ f e :: l2
    rw [hm, updateFirst_first_match l1 e l2 tableName f h1 h2]

/-- Witness for C10 at a concrete manifest: updating name B rewrites
exactly the second entry, and updating an absent name is the
identity. -/
theorem c10_update_table_entry_frame_witness :
    (updateTableEntry mAB "Z" (fun e => { e with status := .skipped })) = mAB ∧
    (updateTableEntry mAB "B" (fun e => { e with status := .skipped })).tables =
      [entA] ++ { entB with status := .skipped } :: [] := by
  constructor
  · exact (c10_update_table_entry_frame mAB "Z"
      (fun e => { e with status := .skipped })).2.2.2.2.1 (by decide)
  · exact (c10_update_table_entry_frame mAB "B"
      (fun e => { e with status := .skipped })).2.2.2.2.2 [entA] entB []
      (by rfl) (by decide) (by rfl)

/-!
## C2 / C6 — streaming adapter
-/

/-- C2 (code bug): with a pull parked when the error notification
arrives — schedule pull, error, pull — the parked pull is resolved
with `undefined` and yielded as a spurious element, and the error is
raised only on the pull after it; the claim requires the error on the
next pull with no element delivered.  Second conjunct: a row notified
before the error and still buffered is silently dropped (the `while`
loop checks `error` before the buffer). -/
theorem c2_stream_error_code_bug :
    streamRun [BridgeEvent.pull, BridgeEvent.errorNote, BridgeEvent.pull] =
      [StreamOut.yieldRow none, StreamOut.raise] ∧
    streamRun [BridgeEvent.rowNote 7, BridgeEvent.errorNote, BridgeEvent.pull] =
      [StreamOut.raise] := by
  decide

/-- C6 (code bug): with a pull parked when end-of-data arrives —
schedule pull, done, pull — the parked pull yields a spurious
`undefined` element before completion, while the claim requires
natural completion with no extra element.  Second conjunct: without a
parked pull the sequence does yield exactly the notified rows in order
and then completes naturally. -/
theorem c6_stream_done_code_bug :
    streamRun [BridgeEvent.pull, BridgeEvent.doneNote, BridgeEvent.pull] =
      [StreamOut.yieldRow none, StreamOut.complete] ∧
    streamRun [BridgeEvent.rowNote 7, BridgeEvent.rowNote 8, BridgeEvent.pull,
        BridgeEvent.pull, BridgeEvent.doneNote, BridgeEvent.pull] =
      [StreamOut.yieldRow (some 7), StreamOut.yieldRow (some 8),
        StreamOut.complete] := by
  decide

theorem writerInv_init (K : Nat) (name : String) (cols : List ColumnMetadata) :
    writerInv K 0 (createExcelWriter name cols) := by
  refine ⟨rfl, fun _ => ⟨rfl, rfl, rfl, rfl⟩, fun h => absurd h (by simp)⟩

theorem writerInv_step (K n : Nat) (hK : 1 ≤ K) (s : ExcelWriterState)
    (r : Row) (h : writerInv K n s) : writerInv K (n + 1) (writeRow K s r) := by
  obtain ⟨tn, si, ric, tot, rps, cols, hasc⟩ := s
  obtain ⟨htot, hz, hp⟩ := h
  simp only at htot hz hp
  rcases Nat.eq_zero_or_pos n with hn | hn
  · obtain ⟨hcs, hsi, hric, hrps⟩ := hz hn
    subst hn hcs hsi hric hrps htot
    unfold writeRow createNewSheet
    rw [if_pos (Or.inl (by simp))]
    rw [if_neg (by simp)]
    refine ⟨rfl, fun hc => absurd hc (by simp), fun _ => ?_⟩
    exact ⟨rfl, le_refl 1, hK, le_refl 1, by simp, by simp⟩
  · obtain ⟨hcs, hr1, hrK, hs1, hsum, hrps⟩ := hp hn
    subst hcs htot
    rcases Nat.lt_or_ge ric K with hlt | hge
    · -- room in the current sheet: no new segment
      unfold writeRow
      rw [if_neg (by simp only [not_or]; exact ⟨by simp, by omega⟩)]
      show writerInv K (tot + 1) ⟨tn, si, ric + 1, tot + 1, rps, cols, true⟩
      dsimp only [writerInv]
      refine ⟨rfl, fun hc => absurd hc (by omega), fun _ => ?_⟩
      refine ⟨rfl, by omega, by omega, by simpa using hs1, ?_,
        by simpa using hrps⟩
      show tot + 1 = K * (si - 1) + (ric + 1)
      rw [hsum, Nat.add_assoc]
    · -- sheet full (rowsInCurrentSheet = K): close it and open a new one
      have hreq : ric = K := le_antisymm hrK hge
      have hmul : K * (si - 1) + K = K * si := by
        rw [← Nat.mul_succ, Nat.succ_eq_add_one, Nat.sub_add_cancel hs1]
      unfold writeRow createNewSheet
      rw [if_pos (Or.inr hge)]
      have hcnd : (true = true) ∧ 0 < ric := ⟨rfl, by omega⟩
      rw [if_pos hcnd]
      show writerInv K (tot + 1)
        ⟨tn, si + 1, 1, tot + 1, rps ++ [ric], cols, true⟩
      dsimp only [writerInv]
      refine ⟨rfl, fun hc => absurd hc (by omega), fun _ => ?_⟩
      refine ⟨rfl, le_refl 1, hK, by simp, ?_, ?_⟩
      · show tot + 1 = K * (si + 1 - 1) + 1
        rw [Nat.add_sub_cancel, hsum, hreq, hmul]
      · show rps ++ [ric] = List.replicate (si + 1 - 1) K
        rw [Nat.add_sub_cancel, hrps, hreq, ← List.replicate_succ',
          Nat.sub_add_cancel hs1]

theorem writerInv_writeRows (K : Nat) (hK : 1 ≤ K) (rows : List Row) :
    ∀ (n : Nat) (s : ExcelWriterState), writerInv K n s →
      writerInv K (n + rows.length) (writeRows K s rows) := by
  induction rows with
  | nil => intro n s h; simpa [writeRows] using h
  | cons r rest ih =>
      intro n s h
      have h1 := writerInv_step K n hK s r h
      have h2 := ih (n + 1) (writeRow K s r) h1
      simpa [writeRows, List.foldl_cons, Nat.add_comm, Nat.add_assoc,
        Nat.add_left_comm] using h2

theorem ceil_div_of_inv (K si ric : Nat) (hK : 1 ≤ K) (h1 : 1 ≤ ric)
    (h2 : ric ≤ K) (hs : 1 ≤ si) :
    (K * (si - 1) + ric + K - 1) / K = si := by
  have e1 : K * (si - 1) + ric + K - 1 = (ric + K - 1) + K * (si - 1) := by
    omega
  rw [e1, Nat.add_mul_div_left _ _ (by omega)]
  have e2 : (ric + K - 1) / K = 1 := by
    apply Nat.div_eq_of_lt_le
    · omega
    · simp only [Nat.succ_mul]
      omega
  rw [e2]
  omega

theorem finalize_of_inv (K n : Nat) (hK : 1 ≤ K) (s : ExcelWriterState)
    (h : writerInv K n s) :
    (finalizeExcel s).rowsWritten = n ∧
    (finalizeExcel s).sheetCount = (n + K - 1) / K ∧
    (finalizeExcel s).rowsPerSheet.sum = n ∧
    (∀ c ∈ (finalizeExcel s).rowsPerSheet, c ≤ K) := by
  obtain ⟨tn, si, ric, tot, rps, cols, hasc⟩ := s
  obtain ⟨htot, hz, hp⟩ := h
  simp only at htot hz hp
  rcases Nat.eq_zero_or_pos n with hn | hn
  · obtain ⟨hcs, hsi, hric, hrps⟩ := hz hn
    subst hn hcs hsi hric hrps htot
    unfold finalizeExcel
    rw [if_neg (by simp)]
    refine ⟨rfl, ?_, rfl, by simp⟩
    show 0 = (0 + K - 1) / K
    rw [Nat.zero_add]
    rw [Nat.div_eq_of_lt (by omega)]
  · obtain ⟨hcs, hr1, hrK, hs1, hsum, hrps⟩ := hp hn
    subst hcs htot
    unfold finalizeExcel
    have hcnd : (true = true) ∧ 0 < ric := ⟨rfl, by omega⟩
    rw [if_pos hcnd]
    refine ⟨rfl, ?_, ?_, ?_⟩
    · show si = (tot + K - 1) / K
      rw [hsum, ceil_div_of_inv K si ric hK hr1 hrK hs1]
    · show (rps ++ [ric]).sum = tot
      rw [List.sum_append, hrps, List.sum_replicate, smul_eq_mul, hsum]
      simp [Nat.mul_comm]
    · show ∀ c ∈ rps ++ [ric], c ≤ K
      intro c hc
      rcases List.mem_append.mp hc with hc1 | hc2
      · rw [hrps] at hc1
        rw [List.eq_of_mem_replicate hc1]
      · simp only [List.mem_singleton] at hc2
        omega

/-- Row conservation of the chunked sink, stated once for shared use:
writing N rows through `writeRow` with segment limit K >= 1 and
finalizing reports sheetCount = ceil(N / K), per-sheet counts that sum
to exactly N with every count at most K, and rowsWritten = N. -/
theorem finalize_writeRows (rows : List Row) (K : Nat) (tableName : String)
    (cols : List ColumnMetadata) (hK : 1 ≤ K) :
    (finalizeExcel (writeRows K (createExcelWriter tableName cols) rows)).rowsWritten
        = rows.length ∧
    (finalizeExcel (writeRows K (createExcelWriter tableName cols) rows)).sheetCount
        = (rows.length + K - 1) / K ∧
    (finalizeExcel (writeRows K (createExcelWriter tableName cols) rows)).rowsPerSheet.sum
        = rows.length ∧
    (∀ c ∈ (finalizeExcel (writeRows K (createExcelWriter tableName cols) rows)).rowsPerSheet,
      c ≤ K) := by
  have hinv := writerInv_writeRows K hK rows 0 (createExcelWriter tableName cols)
    (writerInv_init K tableName cols)
  rw [Nat.zero_add] at hinv
  exact finalize_of_inv K rows.length hK _ hinv

/-- C3: writing N rows through `writeRow` with segment limit K >= 1
and finalizing reports sheetCount = ceil(N / K), per-sheet counts that
sum to exactly N with every count at most K, and rowsWritten = N. -/
theorem c3_row_conservation (rows : List Row) (K : Nat) (tableName : String)
    (cols : List ColumnMetadata) (hK : 1 ≤ K) :
    (finalizeExcel (writeRows K (createExcelWriter tableName cols) rows)).rowsWritten
        = rows.length ∧
    (finalizeExcel (writeRows K (createExcelWriter tableName cols) rows)).sheetCount
        = (rows.length + K - 1) / K ∧
    (finalizeExcel (writeRows K (createExcelWriter tableName cols) rows)).rowsPerSheet.sum
        = rows.length ∧
    (∀ c ∈ (finalizeExcel (writeRows K (createExcelWriter tableName cols) rows)).rowsPerSheet,
      c ≤ K) :=
  finalize_writeRows rows K tableName cols hK

/-- Witness for C3 at the spec's shape of scenario scaled down: 7 rows
with limit 3 give 3 segments summing to 7, none above 3. -/
theorem c3_row_conservation_witness :
    (finalizeExcel (writeRows 3 (createExcelWriter "T" [col1])
      [1, 2, 3, 4, 5, 6, 7])).rowsWritten = 7 ∧
    (finalizeExcel (writeRows 3 (createExcelWriter "T" [col1])
      [1, 2, 3, 4, 5, 6, 7])).sheetCount = 3 ∧
    (finalizeExcel (writeRows 3 (createExcelWriter "T" [col1])
      [1, 2, 3, 4, 5, 6, 7])).rowsPerSheet.sum = 7 := by
  have h := c3_row_conservation [1, 2, 3, 4, 5, 6, 7] 3 "T" [col1] (by decide)
  exact ⟨h.1.trans (by decide), h.2.1.trans (by decide), h.2.2.1.trans (by decide)⟩

/-- C1 (code bug): a restarted run does not resume at the first
incomplete phase.  (i) An entity persisted at `extracting` matches no
phase admission (`discovery` needs pending/failed/no-columns,
`extraction` needs exactly `discovered`), so the run executes no phase
at all for it and returns it still `extracting` — the only trace event
of the whole run is the final disconnect.  (ii) An entity persisted as
`failed` with `failedPhase = validation` re-runs discovery and
extraction before validation, because the discovery admission at
extractor.ts line 52 admits any `failed` status. -/
theorem c1_resume_code_bug :
    (readEntry (runExtraction envBase 5 mStuck).manifest 0).status =
      ProcessingStatus.extracting ∧
    (runExtraction envBase 5 mStuck).manifest = mStuck ∧
    (runExtraction envBase 5 mStuck).trace = [Event.disconnect] ∧
    ((runExtraction envBase 5 mFailedVal).trace.filterMap (fun e =>
      match e with
      | Event.phase _ p => some p
      | _ => none)) =
      [Phase.discovery, Phase.extraction, Phase.validation] := by
  decide

/-- C5 counterexample: a failure outside the three phases answered
`retry` does NOT increment `retryCount` (extractor.ts lines 247-248
set `shouldRetry` without touching `retryCount`).  The run below has
exactly one collaborator invocation, answered `retry`, yet the final
record carries no retryCount at all. -/
theorem c5_retry_counterexample :
    ((runExtraction envUnexpectedRetry 5 mEmpty).trace.filterMap (fun e =>
      match e with
      | Event.decision d => some d
      | _ => none)) = [UserDecision.retry] ∧
    (readEntry (runExtraction envUnexpectedRetry 5 mEmpty).manifest 0).retryCount
      = none ∧
    (readEntry (runExtraction envUnexpectedRetry 5 mEmpty).manifest 0).status
      = ProcessingStatus.validated := by
  decide

set_option maxRecDepth 100000 in
/-- C8 counterexample: the every-1000-rows progress update mutates the
in-memory manifest (extractor.ts lines 117-123), so the persist right
after an extraction failure carries `rowsExtracted = 1000` produced by
the incomplete pass — the persisted snapshots of the run are listed
with their (status, rowsExtracted) pair. -/
theorem c8_counterexample :
    ((runExtraction envStreamFail1000 3 mEmpty).trace.filterMap (fun e =>
      match e with
      | Event.persist m => some ((readEntry m 0).status, (readEntry m 0).rowsExtracted)
      | _ => none)) =
    [(ProcessingStatus.pending, none),
      (ProcessingStatus.discovering, none),
      (ProcessingStatus.discovered, none),
      (ProcessingStatus.extracting, none),
      (ProcessingStatus.failed, some 1000),
      (ProcessingStatus.failed, some 1000),
      (ProcessingStatus.skipped, some 1000)] := by
  decide

/-- C9 counterexample: after the entity reached the terminal status
`validated` (persisted), an exception outside the three phases — the
persist/observer/sleep code after validation is inside the same `try`
— drags it back to `failed` and then `skipped`: the terminal status is
re-entered and changed within a single run. -/
theorem c9_counterexample :
    ((runExtraction envUnexpectedCont 3 mEmpty).trace.filterMap (fun e =>
      match e with
      | Event.persist m => some (readEntry m 0).status
      | _ => none)) =
    [ProcessingStatus.pending, ProcessingStatus.discovering,
      ProcessingStatus.discovered, ProcessingStatus.extracting,
      ProcessingStatus.extracted, ProcessingStatus.validating,
      ProcessingStatus.validated, ProcessingStatus.failed,
      ProcessingStatus.skipped] ∧
    (readEntry (runExtraction envUnexpectedCont 3 mEmpty).manifest 0).status
      = ProcessingStatus.skipped := by
  decide

/-!
## Toolkit: positional characterization of `updateFirst`

Spec section 3 fixes entity identity to the name; the quantified
theorems therefore assume the manifest's names are distinct, under
which the first-match update of `updateTableEntry` is exactly a
positional `List.set`.
-/

theorem getD_cons_succ_entry (e : TableEntry) (l : List TableEntry) (j : Nat) :
    (e :: l).getD (j + 1) defaultEntry = l.getD j defaultEntry := by
  simp [List.getD]

theorem getD_set_self (l : List TableEntry) (i : Nat) (a : TableEntry)
    (h : i < l.length) : (l.set i a).getD i defaultEntry = a := by
  induction l generalizing i with
  | nil => simp at h
  | cons e rest ih =>
      cases i with
      | zero => rfl
      | succ j =>
          show (rest.set j a).getD j defaultEntry = a
          exact ih j (by simpa using h)

theorem getD_set_ne (l : List TableEntry) (i j : Nat) (a : TableEntry)
    (h : i ≠ j) : (l.set i a).getD j defaultEntry = l.getD j defaultEntry := by
  induction l generalizing i j with
  | nil => rfl
  | cons e rest ih =>
      cases i with
      | zero =>
          cases j with
          | zero => exact absurd rfl h
          | succ j2 => rfl
      | succ i2 =>
          cases j with
          | zero => rfl
          | succ j2 =>
              show (rest.set i2 a).getD j2 defaultEntry = rest.getD j2 defaultEntry
              exact ih i2 j2 (fun hc => h (by rw [hc]))

theorem updateFirst_getD_name_ne (l : List TableEntry) (n : String)
    (f : TableEntry → TableEntry) (j : Nat)
    (h : (l.getD j defaultEntry).name ≠ n) :
    (updateFirst l n f).getD j defaultEntry = l.getD j defaultEntry := by
  induction l generalizing j with
  | nil => rfl
  | cons e rest ih =>
      simp only [updateFirst]
      by_cases he : e.name = n
      · rw [if_pos he]
        cases j with
        | zero => exact absurd he (by simpa using h)
        | succ j2 => rfl
      · rw [if_neg he]
        cases j with
        | zero => rfl
        | succ j2 =>
            show (updateFirst rest n f).getD j2 defaultEntry = rest.getD j2 defaultEntry
            exact ih j2 (by simpa using h)

/-- A name read in range is a member of the name list. -/
theorem getD_name_mem (l : List TableEntry) (i : Nat) (h : i < l.length) :
    (l.getD i defaultEntry).name ∈ l.map TableEntry.name := by
  induction l generalizing i with
  | nil => simp at h
  | cons e rest ih =>
      cases i with
      | zero => simp [List.getD]
      | succ j =>
          rw [getD_cons_succ_entry]
          exact List.mem_cons_of_mem _ (ih j (by simpa using h))

/-- Under distinct names, updating the entry named like position `i`
is the positional update at `i`. -/
theorem updateFirst_eq_set (l : List TableEntry) (i : Nat)
    (f : TableEntry → TableEntry)
    (hN : (l.map TableEntry.name).Nodup) (hi : i < l.length) :
    updateFirst l (l.getD i defaultEntry).name f =
      l.set i (f (l.getD i defaultEntry)) := by
  induction l generalizing i with
  | nil => simp at hi
  | cons e rest ih =>
      rw [List.map_cons, List.nodup_cons] at hN
      cases i with
      | zero =>
          show updateFirst (e :: rest) e.name f = f e :: rest
          simp [updateFirst]
      | succ j =>
          have hj : j < rest.length := by simpa using hi
          have hne : e.name ≠ (rest.getD j defaultEntry).name := by
            intro hc
            exact hN.1 (hc ▸ getD_name_mem rest j hj)
          rw [getD_cons_succ_entry]
          show updateFirst (e :: rest) (rest.getD j defaultEntry).name f =
            e :: rest.set j (f (rest.getD j defaultEntry))
          simp only [updateFirst]
          rw [if_neg hne, ih j hN.2 hj]

/-- `updateFirst_eq_set` with the target name given by an equation
rather than syntactically. -/
theorem updateFirst_eq_set_of_name (l : List TableEntry) (i : Nat)
    (f : TableEntry → TableEntry) (nm : String)
    (hnm : (l.getD i defaultEntry).name = nm)
    (hN : (l.map TableEntry.name).Nodup) (hi : i < l.length) :
    updateFirst l nm f = l.set i (f (l.getD i defaultEntry)) := by
  subst hnm
  exact updateFirst_eq_set l i f hN hi

/-- `updateFirst` with a name-preserving update function preserves the
name list (names are never mutated by the orchestrator). -/
theorem updateFirst_map_name (l : List TableEntry) (n : String)
    (f : TableEntry → TableEntry) (hf : ∀ e, (f e).name = e.name) :
    (updateFirst l n f).map TableEntry.name = l.map TableEntry.name := by
  induction l with
  | nil => rfl
  | cons e rest ih =>
      simp only [updateFirst]
      by_cases he : e.name = n
      · rw [if_pos he]
        simp [hf e]
      · rw [if_neg he]
        simp [ih]

/-- Positional `set` with a name-preserving value keeps the name list. -/
theorem set_map_name (l : List TableEntry) (i : Nat) (a : TableEntry)
    (ha : a.name = (l.getD i defaultEntry).name) :
    (l.set i a).map TableEntry.name = l.map TableEntry.name := by
  induction l generalizing i with
  | nil => rfl
  | cons e rest ih =>
      cases i with
      | zero =>
          simp only [List.set]
          rw [List.map_cons, List.map_cons]
          rw [show a.name = e.name from ha]
      | succ j =>
          simp only [List.set]
          rw [List.map_cons, List.map_cons, ih j (by simpa using ha)]

theorem readEntry_applySummary (m : Manifest) (i : Nat) :
    readEntry (applySummary m) i = readEntry m i := rfl

/-- Distinct names survive a name-preserving positional update. -/
theorem nodup_set_names (l : List TableEntry) (i : Nat) (a : TableEntry)
    (ha : a.name = (l.getD i defaultEntry).name)
    (hN : (l.map TableEntry.name).Nodup) :
    ((l.set i a).map TableEntry.name).Nodup := by
  rw [set_map_name l i a ha]
  exact hN

theorem length_set_entry (l : List TableEntry) (i : Nat) (a : TableEntry) :
    (l.set i a).length = l.length := by simp

/-!
## C4 — validation outcome
-/

/-- C4: for an entity admitted to validation whose count query answers
`n`, the committed record is `validated` with result VERIFIED exactly
when `n` equals the recorded `rowsExtracted` (else ROW_COUNT_MISMATCH,
also `validated`), the queried count is stored, and the
failure-decision collaborator is not invoked (its counter is unchanged
and no invocation event is emitted). -/
theorem c4_validation_outcome (env : Env) (s : StepState) (i : Nat) (n : Nat)
    (hN : (s.manifest.tables.map TableEntry.name).Nodup)
    (hi : i < s.manifest.tables.length)
    (hadm : (readEntry s.manifest i).status = ProcessingStatus.extracted ∨
      ((readEntry s.manifest i).status = ProcessingStatus.failed ∧
        (readEntry s.manifest i).failurePhase = some Phase.validation))
    (hcnt : env.rowCount s.ctr.rowCount (readEntry s.manifest i).name =
      Except.ok n) :
    (validationPhase env s i).2.2 = none ∧
    (readEntry (validationPhase env s i).1.manifest i).status =
      ProcessingStatus.validated ∧
    (readEntry (validationPhase env s i).1.manifest i).validationResult =
      some (if n ≠ (readEntry s.manifest i).rowsExtracted.getD 0
        then ValidationResult.ROW_COUNT_MISMATCH else ValidationResult.VERIFIED) ∧
    (readEntry (validationPhase env s i).1.manifest i).sourceRowCount = some n ∧
    (validationPhase env s i).1.ctr.failure = s.ctr.failure ∧
    (∀ r, Event.failureCall r ∉ (validationPhase env s i).2.1) := by
  simp only [validationPhase]
  rw [if_pos hadm, hcnt]
  simp only [readEntry, updateTableEntry, applySummary, persistM]
  have hs1 : updateFirst s.manifest.tables
      (s.manifest.tables.getD i defaultEntry).name
      (fun e => { e with status := ProcessingStatus.validating }) =
      s.manifest.tables.set i
        { s.manifest.tables.getD i defaultEntry with
          status := ProcessingStatus.validating } :=
    updateFirst_eq_set s.manifest.tables i _ hN hi
  simp only [hs1]
  have hgot : (s.manifest.tables.set i
      { s.manifest.tables.getD i defaultEntry with
        status := ProcessingStatus.validating }).getD i defaultEntry =
      { s.manifest.tables.getD i defaultEntry with
        status := ProcessingStatus.validating } :=
    getD_set_self _ _ _ (by simpa using hi)
  simp only [hgot]
  have hN2 : ((s.manifest.tables.set i
      { s.manifest.tables.getD i defaultEntry with
        status := ProcessingStatus.validating }).map TableEntry.name).Nodup :=
    nodup_set_names _ _ _ rfl hN
  have hi2 : i < (s.manifest.tables.set i
      { s.manifest.tables.getD i defaultEntry with
        status := ProcessingStatus.validating }).length := by simpa using hi
  have hs2 := updateFirst_eq_set (s.manifest.tables.set i
      { s.manifest.tables.getD i defaultEntry with
        status := ProcessingStatus.validating }) i
      (fun e => { e with
        status := ProcessingStatus.validated
        validationResult := some (if n ≠ (s.manifest.tables.getD i defaultEntry).rowsExtracted.getD 0
          then ValidationResult.ROW_COUNT_MISMATCH else ValidationResult.VERIFIED)
        sourceRowCount := some n }) hN2 hi2
  simp only [hgot] at hs2
  simp only [hs2, List.set_set]
  have hgot2 : (s.manifest.tables.set i
      { s.manifest.tables.getD i defaultEntry with
        status := ProcessingStatus.validated
        validationResult := some (if n ≠ (s.manifest.tables.getD i defaultEntry).rowsExtracted.getD 0
          then ValidationResult.ROW_COUNT_MISMATCH else ValidationResult.VERIFIED)
        sourceRowCount := some n }).getD i defaultEntry =
      { s.manifest.tables.getD i defaultEntry with
        status := ProcessingStatus.validated
        validationResult := some (if n ≠ (s.manifest.tables.getD i defaultEntry).rowsExtracted.getD 0
          then ValidationResult.ROW_COUNT_MISMATCH else ValidationResult.VERIFIED)
        sourceRowCount := some n } :=
    getD_set_self _ _ _ (by simpa using hi)
  simp only [hgot2]
  refine ⟨trivial, trivial, trivial, trivial, trivial, ?_⟩
  intro r hr
  simp at hr

/-- Witness for C4: source count 7 against rowsExtracted 5 gives a
ROW_COUNT_MISMATCH yet the status still advances to validated. -/
theorem c4_validation_outcome_witness :
    (readEntry (validationPhase envCount7 sExtracted 0).1.manifest 0).status =
      ProcessingStatus.validated ∧
    (readEntry (validationPhase envCount7 sExtracted 0).1.manifest 0).validationResult =
      some ValidationResult.ROW_COUNT_MISMATCH ∧
    (validationPhase envCount7 sExtracted 0).1.ctr.failure = 0 := by
  have h := c4_validation_outcome envCount7 sExtracted 0 7
    (by decide) (by decide) (by decide) rfl
  exact ⟨h.2.1, h.2.2.1.trans (by decide), h.2.2.2.2.1.trans (by decide)⟩

/-!
## C5 — retry increments
-/

/-- A field untouched by a name-respecting `updateFirst` pass is
unchanged at every position (the projection `P` abstracts the field). -/
theorem updateFirst_getD_field {α : Type} (l : List TableEntry) (n : String)
    (f : TableEntry → TableEntry) (j : Nat) (P : TableEntry → α)
    (hf : ∀ e, P (f e) = P e) :
    P ((updateFirst l n f).getD j defaultEntry) = P (l.getD j defaultEntry) := by
  induction l generalizing j with
  | nil => rfl
  | cons e rest ih =>
      simp only [updateFirst]
      by_cases he : e.name = n
      · rw [if_pos he]
        cases j with
        | zero => exact hf e
        | succ j2 => rfl
      · rw [if_neg he]
        cases j with
        | zero => rfl
        | succ j2 =>
            show P ((updateFirst rest n f).getD j2 defaultEntry) =
              P (rest.getD j2 defaultEntry)
            exact ih j2

/-- The `retry` branch of the shared failure protocol (extractor.ts
lines 71-76 / 160-165 / 216-221): the loop is re-entered and
`retryCount` on the failed entity is bumped by exactly one, its status
left at `failed`. -/
theorem handleFailure_retry (env : Env) (s : StepState) (i : Nat)
    (hN : (s.manifest.tables.map TableEntry.name).Nodup)
    (hi : i < s.manifest.tables.length)
    (hd : env.onFailure s.ctr.failure (readEntry s.manifest i) =
      UserDecision.retry) :
    (handleFailure env s i).2.2 = IterOut.redo ∧
    (readEntry (handleFailure env s i).1.manifest i).retryCount =
      some ((readEntry s.manifest i).retryCount.getD 0 + 1) ∧
    (readEntry (handleFailure env s i).1.manifest i).status =
      (readEntry s.manifest i).status := by
  simp only [handleFailure]
  rw [hd]
  simp only [readEntry, updateTableEntry, applySummary, persistM]
  have hs1 : updateFirst s.manifest.tables
      (s.manifest.tables.getD i defaultEntry).name
      (fun e => { e with userDecision := some UserDecision.retry }) =
      s.manifest.tables.set i
        { s.manifest.tables.getD i defaultEntry with
          userDecision := some UserDecision.retry } :=
    updateFirst_eq_set s.manifest.tables i _ hN hi
  simp only [hs1]
  have hgot : (s.manifest.tables.set i
      { s.manifest.tables.getD i defaultEntry with
        userDecision := some UserDecision.retry }).getD i defaultEntry =
      { s.manifest.tables.getD i defaultEntry with
        userDecision := some UserDecision.retry } :=
    getD_set_self _ _ _ (by simpa using hi)
  simp only [hgot]
  have hN2 : ((s.manifest.tables.set i
      { s.manifest.tables.getD i defaultEntry with
        userDecision := some UserDecision.retry }).map TableEntry.name).Nodup :=
    nodup_set_names _ _ _ rfl hN
  have hi2 : i < (s.manifest.tables.set i
      { s.manifest.tables.getD i defaultEntry with
        userDecision := some UserDecision.retry }).length := by simpa using hi
  have hs2 := updateFirst_eq_set (s.manifest.tables.set i
      { s.manifest.tables.getD i defaultEntry with
        userDecision := some UserDecision.retry }) i
      (fun e => { e with
        retryCount := some ((s.manifest.tables.getD i defaultEntry).retryCount.getD 0 + 1) })
      hN2 hi2
  simp only [hgot] at hs2
  simp only [hs2, List.set_set]
  have hgot2 : (s.manifest.tables.set i
      { s.manifest.tables.getD i defaultEntry with
        userDecision := some UserDecision.retry
        retryCount := some ((s.manifest.tables.getD i defaultEntry).retryCount.getD 0 + 1) }).getD
        i defaultEntry =
      { s.manifest.tables.getD i defaultEntry with
        userDecision := some UserDecision.retry
        retryCount := some ((s.manifest.tables.getD i defaultEntry).retryCount.getD 0 + 1) } :=
    getD_set_self _ _ _ (by simpa using hi)
  simp only [hgot2]
  exact ⟨trivial, trivial, trivial⟩

/-- The outer-catch `retry` branch (extractor.ts lines 247-248) sets
only `shouldRetry`: the failed entity's `retryCount` (and its
unpersisted `userDecision`) are left untouched. -/
theorem catchAll_retry_no_increment (env : Env) (s : StepState) (i : Nat)
    (msg : String) (h : (catchAll env s i msg).2.2 = IterOut.redo) :
    (readEntry (catchAll env s i msg).1.manifest i).retryCount =
      (readEntry s.manifest i).retryCount ∧
    (readEntry (catchAll env s i msg).1.manifest i).userDecision =
      (readEntry s.manifest i).userDecision := by
  revert h
  simp only [catchAll, readEntry, updateTableEntry, applySummary, persistM]
  cases hd : env.onFailure s.ctr.failure
    ((updateFirst s.manifest.tables
      (s.manifest.tables.getD i defaultEntry).name
      (fun e => { e with
        status := ProcessingStatus.failed
        extractionError := some msg })).getD i defaultEntry) with
  | abort => intro hc; exact absurd hc (by simp)
  | cont => intro hc; exact absurd hc (by simp)
  | retry =>
      intro _
      constructor
      · exact updateFirst_getD_field s.manifest.tables _ _ i
          TableEntry.retryCount (fun e => rfl)
      · exact updateFirst_getD_field s.manifest.tables _ _ i
          TableEntry.userDecision (fun e => rfl)

/-- C5 (amended): a `retry` answer to a discovery, extraction or
validation failure re-enters the per-entity loop with `retryCount`
bumped by exactly one; a `retry` answer to an exception outside the
three phases re-enters the loop WITHOUT incrementing `retryCount`; and
in the concrete scenario — discovery failing twice then succeeding
under answers retry, retry — the final record has retryCount = 2 and
status = validated. -/
theorem c5_retry_amended :
    (∀ (env : Env) (s : StepState) (i : Nat),
      (s.manifest.tables.map TableEntry.name).Nodup →
      i < s.manifest.tables.length →
      env.onFailure s.ctr.failure (readEntry s.manifest i) = UserDecision.retry →
      (handleFailure env s i).2.2 = IterOut.redo ∧
      (readEntry (handleFailure env s i).1.manifest i).retryCount =
        some ((readEntry s.manifest i).retryCount.getD 0 + 1)) ∧
    (∀ (env : Env) (s : StepState) (i : Nat) (msg : String),
      (catchAll env s i msg).2.2 = IterOut.redo →
      (readEntry (catchAll env s i msg).1.manifest i).retryCount =
        (readEntry s.manifest i).retryCount) ∧
    ((readEntry (runExtraction envDiscoveryFlaky 5 mEmpty).manifest 0).retryCount
        = some 2 ∧
      (readEntry (runExtraction envDiscoveryFlaky 5 mEmpty).manifest 0).status
        = ProcessingStatus.validated) := by
  refine ⟨fun env s i hN hi hd => ?_, fun env s i msg h =>
    (catchAll_retry_no_increment env s i msg h).1, by decide⟩
  have h := handleFailure_retry env s i hN hi hd
  exact ⟨h.1, h.2.1⟩

/-- Witness for C5 (amended) at a concrete failed entity: the
collaborator answers retry once and retryCount goes from absent to 1,
and the loop re-enters. -/
theorem c5_retry_amended_witness :
    (handleFailure envRetryAlways sFailedDisc 0).2.2 = IterOut.redo ∧
    (readEntry (handleFailure envRetryAlways sFailedDisc 0).1.manifest 0).retryCount
      = some 1 := by
  have h := c5_retry_amended.1 envRetryAlways sFailedDisc 0
    (by decide) (by decide) (by decide)
  exact ⟨h.1, h.2.trans (by decide)⟩

/-!
## C8 — `rowsExtracted` commits
-/

theorem extractLoop_writer (mx : Nat) (nm : String) (rows : List Row) :
    ∀ (m : Manifest) (w : ExcelWriterState) (rc : Nat),
      (extractLoop mx nm rows m w rc).2.1 = writeRows mx w rows ∧
      (extractLoop mx nm rows m w rc).2.2 = rc + rows.length := by
  induction rows with
  | nil => intro m w rc; exact ⟨rfl, by simp [extractLoop, writeRows]⟩
  | cons r rest ih =>
      intro m w rc
      simp only [extractLoop]
      have h := ih (if (rc + 1) % 1000 = 0 then
          updateTableEntry m nm (fun e => { e with
            rowsExtracted := some (rc + 1)
            sheetsCreated := some (writeRow mx w r).sheetIndex })
        else m) (writeRow mx w r) (rc + 1)
      refine ⟨h.1.trans ?_, h.2.trans (by simp; omega)⟩
      simp [writeRows]

theorem extractLoop_map_name (mx : Nat) (nm : String) (rows : List Row) :
    ∀ (m : Manifest) (w : ExcelWriterState) (rc : Nat),
      (extractLoop mx nm rows m w rc).1.tables.map TableEntry.name =
        m.tables.map TableEntry.name := by
  induction rows with
  | nil => intro m w rc; rfl
  | cons r rest ih =>
      intro m w rc
      simp only [extractLoop]
      by_cases hc : (rc + 1) % 1000 = 0
      · rw [if_pos hc]
        rw [ih]
        exact updateFirst_map_name _ _ _ (fun e => rfl)
      · rw [if_neg hc]
        exact ih m (writeRow mx w r) (rc + 1)

theorem extractLoop_rowsExtracted (mx : Nat) (rows : List Row) :
    ∀ (m : Manifest) (w : ExcelWriterState) (rc i : Nat),
      (m.tables.map TableEntry.name).Nodup →
      i < m.tables.length →
      (readEntry (extractLoop mx (readEntry m i).name rows m w rc).1 i).rowsExtracted =
        (if rc < 1000 * ((rc + rows.length) / 1000)
          then some (1000 * ((rc + rows.length) / 1000))
          else (readEntry m i).rowsExtracted) := by
  induction rows with
  | nil =>
      intro m w rc i hN hi
      have hc : ¬ rc < 1000 * ((rc + 0) / 1000) := by omega
      rw [if_neg (by simpa using hc)]
      rfl
  | cons r rest ih =>
      intro m w rc i hN hi
      simp only [extractLoop, List.length_cons]
      by_cases hc : (rc + 1) % 1000 = 0
      · rw [if_pos hc]
        -- checkpoint fires: the manifest records rc + 1
        have hset : updateFirst m.tables (readEntry m i).name
            (fun e => { e with
              rowsExtracted := some (rc + 1)
              sheetsCreated := some (writeRow mx w r).sheetIndex }) =
            m.tables.set i
              { m.tables.getD i defaultEntry with
                rowsExtracted := some (rc + 1)
                sheetsCreated := some (writeRow mx w r).sheetIndex } :=
          updateFirst_eq_set m.tables i _ hN hi
        set m1 : Manifest := updateTableEntry m (readEntry m i).name
          (fun e => { e with
            rowsExtracted := some (rc + 1)
            sheetsCreated := some (writeRow mx w r).sheetIndex }) with hm1
        have hname1 : (readEntry m1 i).name = (readEntry m i).name := by
          show TableEntry.name ((updateFirst m.tables _ _).getD i defaultEntry) = _
          exact updateFirst_getD_field _ _ _ _ TableEntry.name (fun e => rfl)
        have hmap1 : m1.tables.map TableEntry.name =
            m.tables.map TableEntry.name :=
          updateFirst_map_name m.tables (readEntry m i).name _ (fun e => rfl)
        have hN1 : (m1.tables.map TableEntry.name).Nodup := by
          rw [hmap1]
          exact hN
        have hi1 : i < m1.tables.length := by
          show i < (updateFirst m.tables _ _).length
          rw [updateFirst_length]
          exact hi
        have hrecall := ih m1 (writeRow mx w r) (rc + 1) i hN1 hi1
        rw [hname1] at hrecall
        rw [hrecall]
        have hread1 : (readEntry m1 i).rowsExtracted = some (rc + 1) := by
          show TableEntry.rowsExtracted ((updateFirst m.tables _ _).getD i defaultEntry) = _
          rw [show (updateFirst m.tables (readEntry m i).name
            (fun e => { e with
              rowsExtracted := some (rc + 1)
              sheetsCreated := some (writeRow mx w r).sheetIndex })) =
            m.tables.set i
              { m.tables.getD i defaultEntry with
                rowsExtracted := some (rc + 1)
                sheetsCreated := some (writeRow mx w r).sheetIndex } from hset]
          rw [getD_set_self _ _ _ (by simpa using hi)]
        rw [hread1]
        -- arithmetic: the totals agree and rc + 1 is itself the last
        -- checkpoint when no later one is crossed
        have htot : rc + 1 + rest.length = rc + (rest.length + 1) := by omega
        rw [htot]
        by_cases hlt : rc + 1 < 1000 * ((rc + (rest.length + 1)) / 1000)
        · rw [if_pos hlt, if_pos (by omega)]
        · rw [if_neg hlt, if_pos (by omega)]
          have : 1000 * ((rc + (rest.length + 1)) / 1000) = rc + 1 := by omega
          rw [this]
      · rw [if_neg hc]
        have hrecall := ih m (writeRow mx w r) (rc + 1) i hN hi
        rw [hrecall]
        have htot : rc + 1 + rest.length = rc + (rest.length + 1) := by omega
        rw [htot]
        by_cases hlt : rc + 1 < 1000 * ((rc + (rest.length + 1)) / 1000)
        · rw [if_pos hlt, if_pos (by omega)]
        · rw [if_neg hlt, if_neg (by omega)]

theorem name_getD_map (l : List TableEntry) (j : Nat) :
    (l.getD j defaultEntry).name =
      (l.map TableEntry.name).getD j defaultEntry.name := by
  induction l generalizing j with
  | nil => rfl
  | cons e rest ih =>
      cases j with
      | zero => rfl
      | succ j2 => exact ih j2

theorem length_eq_of_map_name_eq (l1 l2 : List TableEntry)
    (h : l1.map TableEntry.name = l2.map TableEntry.name) :
    l1.length = l2.length := by
  have h2 := congrArg List.length h
  simpa using h2

/-- A successful extraction pass commits `rowsExtracted` equal to the
full number of rows the stream delivered and advances to `extracted`. -/
theorem extractionPhase_success (env : Env) (s : StepState) (i : Nat)
    (hN : (s.manifest.tables.map TableEntry.name).Nodup)
    (hi : i < s.manifest.tables.length)
    (hmx : 1 ≤ env.maxRows)
    (hadm : (readEntry s.manifest i).status = ProcessingStatus.discovered ∨
      ((readEntry s.manifest i).status = ProcessingStatus.failed ∧
        (readEntry s.manifest i).failurePhase = some Phase.extraction))
    (hok : (env.stream s.ctr.stream (readEntry s.manifest i).name).failure = none) :
    (extractionPhase env s i).2.2 = none ∧
    (readEntry (extractionPhase env s i).1.manifest i).status =
      ProcessingStatus.extracted ∧
    (readEntry (extractionPhase env s i).1.manifest i).rowsExtracted =
      some (env.stream s.ctr.stream (readEntry s.manifest i).name).rows.length := by
  simp only [readEntry] at hok
  simp only [extractionPhase]
  rw [if_pos hadm]
  simp only [readEntry, updateTableEntry, applySummary, persistM]
  rw [hok]
  have hs1 : updateFirst s.manifest.tables
      (s.manifest.tables.getD i defaultEntry).name
      (fun e => { e with status := ProcessingStatus.extracting }) =
      s.manifest.tables.set i
        { s.manifest.tables.getD i defaultEntry with
          status := ProcessingStatus.extracting } :=
    updateFirst_eq_set s.manifest.tables i _ hN hi
  simp only [hs1]
  set L1 : List TableEntry := s.manifest.tables.set i
    { s.manifest.tables.getD i defaultEntry with
      status := ProcessingStatus.extracting } with hL1
  have hmapL1 : L1.map TableEntry.name = s.manifest.tables.map TableEntry.name :=
    set_map_name _ _ _ rfl
  have hNL1 : (L1.map TableEntry.name).Nodup := by rw [hmapL1]; exact hN
  have hiL1 : i < L1.length := by
    rw [length_eq_of_map_name_eq L1 s.manifest.tables hmapL1]
    exact hi
  set PM : Manifest := { version := s.manifest.version, sourceDatabase := s.manifest.sourceDatabase, tables := L1, summary := updateSummary L1 } with hPM
  set W : ExcelWriterState := createExcelWriter
    (s.manifest.tables.getD i defaultEntry).name
    ((L1.getD i defaultEntry).columns.getD []) with hW
  set FOLD := extractLoop env.maxRows (s.manifest.tables.getD i defaultEntry).name
    (env.stream s.ctr.stream (s.manifest.tables.getD i defaultEntry).name).rows
    PM W 0 with hFOLD
  have hfoldmap : FOLD.1.tables.map TableEntry.name = L1.map TableEntry.name :=
    extractLoop_map_name _ _ _ PM W 0
  have hNF : (FOLD.1.tables.map TableEntry.name).Nodup := by
    rw [hfoldmap]
    exact hNL1
  have hiF : i < FOLD.1.tables.length := by
    rw [length_eq_of_map_name_eq FOLD.1.tables L1 hfoldmap]
    exact hiL1
  have hnmF : (FOLD.1.tables.getD i defaultEntry).name =
      (s.manifest.tables.getD i defaultEntry).name := by
    rw [name_getD_map FOLD.1.tables i, hfoldmap, hmapL1, ← name_getD_map]
  have hsF := updateFirst_eq_set_of_name FOLD.1.tables i
    (fun e => { e with
      status := ProcessingStatus.extracted
      rowsExtracted := some (finalizeExcel FOLD.2.1).rowsWritten
      sheetsCreated := some (finalizeExcel FOLD.2.1).sheetCount
      rowsPerSheet := some (finalizeExcel FOLD.2.1).rowsPerSheet })
    (s.manifest.tables.getD i defaultEntry).name hnmF hNF hiF
  simp only [hsF]
  have hgotF : (FOLD.1.tables.set i
      { FOLD.1.tables.getD i defaultEntry with
        status := ProcessingStatus.extracted
        rowsExtracted := some (finalizeExcel FOLD.2.1).rowsWritten
        sheetsCreated := some (finalizeExcel FOLD.2.1).sheetCount
        rowsPerSheet := some (finalizeExcel FOLD.2.1).rowsPerSheet }).getD i
      defaultEntry =
      { FOLD.1.tables.getD i defaultEntry with
        status := ProcessingStatus.extracted
        rowsExtracted := some (finalizeExcel FOLD.2.1).rowsWritten
        sheetsCreated := some (finalizeExcel FOLD.2.1).sheetCount
        rowsPerSheet := some (finalizeExcel FOLD.2.1).rowsPerSheet } :=
    getD_set_self _ _ _ (by simpa using hiF)
  simp only [hgotF]
  have hw := (extractLoop_writer env.maxRows
    (s.manifest.tables.getD i defaultEntry).name
    (env.stream s.ctr.stream (s.manifest.tables.getD i defaultEntry).name).rows
    PM W 0).1
  rw [← hFOLD] at hw
  have hc3 := (finalize_writeRows
    (env.stream s.ctr.stream (s.manifest.tables.getD i defaultEntry).name).rows
    env.maxRows (s.manifest.tables.getD i defaultEntry).name
    ((L1.getD i defaultEntry).columns.getD []) hmx).1
  refine ⟨trivial, trivial, ?_⟩
  show some (finalizeExcel FOLD.2.1).rowsWritten =
    some (env.stream s.ctr.stream (s.manifest.tables.getD i defaultEntry).name).rows.length
  rw [hw, hW, hc3]

/-- C8 (amended): the final `rowsExtracted` total is committed exactly
by a full successful extraction pass (second conjunct), but during a
pass the in-memory manifest records a checkpoint at every multiple of
1000 rows, so a manifest observed or persisted while the pass is
incomplete carries the last such checkpoint — or the prior value when
fewer than the next multiple of 1000 rows were streamed (first
conjunct, characterizing the loop at extractor.ts lines 112-124). -/
theorem c8_rows_extracted_amended :
    (∀ (mx : Nat) (rows : List Row) (m : Manifest) (w : ExcelWriterState)
        (rc i : Nat),
      (m.tables.map TableEntry.name).Nodup →
      i < m.tables.length →
      (readEntry (extractLoop mx (readEntry m i).name rows m w rc).1 i).rowsExtracted =
        (if rc < 1000 * ((rc + rows.length) / 1000)
          then some (1000 * ((rc + rows.length) / 1000))
          else (readEntry m i).rowsExtracted)) ∧
    (∀ (env : Env) (s : StepState) (i : Nat),
      (s.manifest.tables.map TableEntry.name).Nodup →
      i < s.manifest.tables.length →
      1 ≤ env.maxRows →
      ((readEntry s.manifest i).status = ProcessingStatus.discovered ∨
        ((readEntry s.manifest i).status = ProcessingStatus.failed ∧
          (readEntry s.manifest i).failurePhase = some Phase.extraction)) →
      (env.stream s.ctr.stream (readEntry s.manifest i).name).failure = none →
      (readEntry (extractionPhase env s i).1.manifest i).status =
        ProcessingStatus.extracted ∧
      (readEntry (extractionPhase env s i).1.manifest i).rowsExtracted =
        some (env.stream s.ctr.stream (readEntry s.manifest i).name).rows.length) := by
  refine ⟨fun mx rows m w rc i hN hi =>
    extractLoop_rowsExtracted mx rows m w rc i hN hi,
    fun env s i hN hi hmx hadm hok => ?_⟩
  have h := extractionPhase_success env s i hN hi hmx hadm hok
  exact ⟨h.2.1, h.2.2⟩

set_option maxRecDepth 100000 in
/-- Witness for C8 (amended): 1000 streamed rows leave checkpoint 1000
in the manifest mid-pass, and a clean 2-row pass commits exactly 2. -/
theorem c8_rows_extracted_amended_witness :
    (readEntry (extractLoop 1000000 (readEntry mStuck 0).name
      (List.replicate 1000 0) mStuck (createExcelWriter "T1" []) 0).1 0).rowsExtracted
      = some 1000 ∧
    (readEntry (extractionPhase envRows2 sDiscovered 0).1.manifest 0).status =
      ProcessingStatus.extracted ∧
    (readEntry (extractionPhase envRows2 sDiscovered 0).1.manifest 0).rowsExtracted =
      some 2 := by
  have h1 := c8_rows_extracted_amended.1 1000000 (List.replicate 1000 0)
    mStuck (createExcelWriter "T1" []) 0 0 (by decide) (by decide)
  have h2 := c8_rows_extracted_amended.2 envRows2 sDiscovered 0
    (by decide) (by decide) (by decide) (by decide) rfl
  exact ⟨h1.trans (by decide), h2.1, h2.2.trans (by decide)⟩

theorem name_at_of_map_eq (l1 l2 : List TableEntry)
    (h : l1.map TableEntry.name = l2.map TableEntry.name) (j : Nat) :
    (l1.getD j defaultEntry).name = (l2.getD j defaultEntry).name := by
  rw [name_getD_map, h, ← name_getD_map]

theorem framePairT_refl (l : List TableEntry) (nm : String) :
    framePairT l l nm :=
  ⟨rfl, fun _ _ => rfl⟩

theorem framePairT_trans (l l1 l2 : List TableEntry) (nm : String)
    (h1 : framePairT l l1 nm) (h2 : framePairT l1 l2 nm) :
    framePairT l l2 nm := by
  refine ⟨h2.1.trans h1.1, fun j hj => ?_⟩
  have hnj : (l1.getD j defaultEntry).name = (l.getD j defaultEntry).name :=
    name_at_of_map_eq l1 l h1.1 j
  rw [h2.2 j (by rw [hnj]; exact hj), h1.2 j hj]

theorem framePairT_updateFirst (l : List TableEntry) (nm : String)
    (f : TableEntry → TableEntry) (hf : ∀ e, (f e).name = e.name) :
    framePairT l (updateFirst l nm f) nm :=
  ⟨updateFirst_map_name l nm f hf,
    fun j hj => updateFirst_getD_name_ne l nm f j hj⟩

/-- A step whose update targets the name currently at position `i`
(read in the current list) still frames everything named differently
from the ORIGINAL name at `i`, names being preserved. -/
theorem framePairT_congr_name (l l2 : List TableEntry) (nm nm2 : String)
    (h : nm2 = nm) (hp : framePairT l l2 nm2) : framePairT l l2 nm := by
  rw [← h]
  exact hp

theorem handleFailure_frame (env : Env) (s : StepState) (i : Nat) :
    framePairT s.manifest.tables (handleFailure env s i).1.manifest.tables
      (readEntry s.manifest i).name := by
  simp only [handleFailure, readEntry, updateTableEntry, applySummary, persistM]
  cases env.onFailure s.ctr.failure (s.manifest.tables.getD i defaultEntry) with
  | retry =>
      refine framePairT_trans _ _ _ _ (framePairT_updateFirst _ _ _ ?_)
        (framePairT_updateFirst _ _ _ ?_)
      · intro e; rfl
      · intro e; rfl
  | abort =>
      refine framePairT_updateFirst _ _ _ ?_
      intro e; rfl
  | cont =>
      refine framePairT_trans _ _ _ _ (framePairT_updateFirst _ _ _ ?_)
        (framePairT_updateFirst _ _ _ ?_)
      · intro e; rfl
      · intro e; rfl

theorem catchAll_frame (env : Env) (s : StepState) (i : Nat) (msg : String) :
    framePairT s.manifest.tables (catchAll env s i msg).1.manifest.tables
      (readEntry s.manifest i).name := by
  simp only [catchAll, readEntry, updateTableEntry, applySummary, persistM]
  cases env.onFailure s.ctr.failure
      ((updateFirst s.manifest.tables
        (s.manifest.tables.getD i defaultEntry).name
        (fun e => { e with
          status := ProcessingStatus.failed
          extractionError := some msg })).getD i defaultEntry) with
  | retry =>
      refine framePairT_updateFirst _ _ _ ?_
      intro e; rfl
  | abort =>
      refine framePairT_updateFirst _ _ _ ?_
      intro e; rfl
  | cont =>
      refine framePairT_trans _ _ _ _ (framePairT_updateFirst _ _ _ ?_)
        (framePairT_updateFirst _ _ _ ?_)
      · intro e; rfl
      · intro e; rfl

theorem extractLoop_frame (mx : Nat) (nm : String) (rows : List Row) :
    ∀ (m : Manifest) (w : ExcelWriterState) (rc : Nat),
      framePairT m.tables (extractLoop mx nm rows m w rc).1.tables nm := by
  induction rows with
  | nil => intro m w rc; exact framePairT_refl _ _
  | cons r rest ih =>
      intro m w rc
      simp only [extractLoop]
      by_cases hc : (rc + 1) % 1000 = 0
      · rw [if_pos hc]
        refine framePairT_trans _ _ _ _ ?_ (ih _ _ _)
        show framePairT m.tables (updateTableEntry m nm _).tables nm
        refine framePairT_updateFirst _ _ _ ?_
        intro e; rfl
      · rw [if_neg hc]
        exact ih m (writeRow mx w r) (rc + 1)

theorem discoveryPhase_frame (env : Env) (s : StepState) (i : Nat) :
    framePairT s.manifest.tables (discoveryPhase env s i).1.manifest.tables
      (readEntry s.manifest i).name := by
  simp only [discoveryPhase, readEntry, updateTableEntry, applySummary, persistM]
  by_cases hadm : (s.manifest.tables.getD i defaultEntry).status =
      ProcessingStatus.pending ∨
      (s.manifest.tables.getD i defaultEntry).status = ProcessingStatus.failed ∨
      (s.manifest.tables.getD i defaultEntry).columns = none
  · rw [if_pos hadm]
    cases env.smoke s.ctr.smoke (s.manifest.tables.getD i defaultEntry).name with
    | ok cols =>
        refine framePairT_trans _ _ _ _ (framePairT_updateFirst _ _ _ ?_)
          (framePairT_updateFirst _ _ _ ?_)
        · intro e; rfl
        · intro e; rfl
    | error msg =>
        refine framePairT_trans _ _ _ _ ?_ (framePairT_congr_name _ _ _ _ ?_
          (handleFailure_frame env _ i))
        · refine framePairT_trans _ _ _ _ (framePairT_updateFirst _ _ _ ?_)
            (framePairT_updateFirst _ _ _ ?_)
          · intro e; rfl
          · intro e; rfl
        · show TableEntry.name _ = TableEntry.name _
          refine (updateFirst_getD_field _ _ _ i TableEntry.name ?_).trans
            (updateFirst_getD_field _ _ _ i TableEntry.name ?_)
          · intro e; rfl
          · intro e; rfl
  · rw [if_neg hadm]
    exact framePairT_refl _ _

theorem extractionPhase_frame (env : Env) (s : StepState) (i : Nat) :
    framePairT s.manifest.tables (extractionPhase env s i).1.manifest.tables
      (readEntry s.manifest i).name := by
  simp only [extractionPhase, readEntry, updateTableEntry, applySummary, persistM]
  by_cases hadm : (s.manifest.tables.getD i defaultEntry).status =
      ProcessingStatus.discovered ∨
      ((s.manifest.tables.getD i defaultEntry).status = ProcessingStatus.failed ∧
        (s.manifest.tables.getD i defaultEntry).failurePhase = some Phase.extraction)
  · rw [if_pos hadm]
    cases (env.stream s.ctr.stream (s.manifest.tables.getD i defaultEntry).name).failure with
    | none =>
        refine framePairT_trans _ _ _ _ ?_ (framePairT_updateFirst _ _ _ ?_)
        · refine framePairT_trans _ _ _ _ (framePairT_updateFirst _ _ _ ?_)
            (extractLoop_frame _ _ _ _ _ _)
          intro e; rfl
        · intro e; rfl
    | some msg =>
        refine framePairT_trans _ _ _ _ ?_ (framePairT_congr_name _ _ _ _ ?_
          (handleFailure_frame env _ i))
        · refine framePairT_trans _ _ _ _ ?_ (framePairT_updateFirst _ _ _ ?_)
          · refine framePairT_trans _ _ _ _ (framePairT_updateFirst _ _ _ ?_)
              (extractLoop_frame _ _ _ _ _ _)
            intro e; rfl
          · intro e; rfl
        · show TableEntry.name _ = TableEntry.name _
          refine (updateFirst_getD_field _ _ _ i TableEntry.name ?_).trans
            ((name_at_of_map_eq _ _ (extractLoop_frame _ _ _ _ _ _).1 i).trans
              (updateFirst_getD_field _ _ _ i TableEntry.name ?_))
          · intro e; rfl
          · intro e; rfl
  · rw [if_neg hadm]
    exact framePairT_refl _ _

theorem validationPhase_frame (env : Env) (s : StepState) (i : Nat) :
    framePairT s.manifest.tables (validationPhase env s i).1.manifest.tables
      (readEntry s.manifest i).name := by
  simp only [validationPhase, readEntry, updateTableEntry, applySummary, persistM]
  by_cases hadm : (s.manifest.tables.getD i defaultEntry).status =
      ProcessingStatus.extracted ∨
      ((s.manifest.tables.getD i defaultEntry).status = ProcessingStatus.failed ∧
        (s.manifest.tables.getD i defaultEntry).failurePhase = some Phase.validation)
  · rw [if_pos hadm]
    cases env.rowCount s.ctr.rowCount (s.manifest.tables.getD i defaultEntry).name with
    | ok n =>
        refine framePairT_trans _ _ _ _ (framePairT_updateFirst _ _ _ ?_)
          (framePairT_updateFirst _ _ _ ?_)
        · intro e; rfl
        · intro e; rfl
    | error msg =>
        refine framePairT_trans _ _ _ _ ?_ (framePairT_congr_name _ _ _ _ ?_
          (handleFailure_frame env _ i))
        · refine framePairT_trans _ _ _ _ (framePairT_updateFirst _ _ _ ?_)
            (framePairT_updateFirst _ _ _ ?_)
          · intro e; rfl
          · intro e; rfl
        · show TableEntry.name _ = TableEntry.name _
          refine (updateFirst_getD_field _ _ _ i TableEntry.name ?_).trans
            (updateFirst_getD_field _ _ _ i TableEntry.name ?_)
          · intro e; rfl
          · intro e; rfl
  · rw [if_neg hadm]
    exact framePairT_refl _ _

set_option maxHeartbeats 1000000 in
theorem iterEntity_frame (env : Env) (s : StepState) (i : Nat) :
    framePairT s.manifest.tables (iterEntity env s i).1.manifest.tables
      (readEntry s.manifest i).name := by
  simp only [iterEntity]
  cases h1 : (discoveryPhase env s i).2.2 with
  | some out => exact discoveryPhase_frame env s i
  | none =>
    cases h2 : (extractionPhase env (discoveryPhase env s i).1 i).2.2 with
    | some out =>
        refine framePairT_trans _ _ _ _ (discoveryPhase_frame env s i)
          (framePairT_congr_name _ _ _ _ ?_
            (extractionPhase_frame env (discoveryPhase env s i).1 i))
        exact name_at_of_map_eq _ _ (discoveryPhase_frame env s i).1 i
    | none =>
      have hframe2 : framePairT s.manifest.tables
          (extractionPhase env (discoveryPhase env s i).1 i).1.manifest.tables
          (readEntry s.manifest i).name := by
        refine framePairT_trans _ _ _ _ (discoveryPhase_frame env s i)
          (framePairT_congr_name _ _ _ _ ?_
            (extractionPhase_frame env (discoveryPhase env s i).1 i))
        exact name_at_of_map_eq _ _ (discoveryPhase_frame env s i).1 i
      have hframe3 : framePairT s.manifest.tables
          (validationPhase env (extractionPhase env (discoveryPhase env s i).1 i).1 i).1.manifest.tables
          (readEntry s.manifest i).name := by
        refine framePairT_trans _ _ _ _ hframe2
          (framePairT_congr_name _ _ _ _ ?_ (validationPhase_frame env _ i))
        exact name_at_of_map_eq _ _ hframe2.1 i
      cases h3 : (validationPhase env (extractionPhase env (discoveryPhase env s i).1 i).1 i).2.2 with
      | some out => exact hframe3
      | none =>
        cases hu : env.unexpected
            (validationPhase env (extractionPhase env (discoveryPhase env s i).1 i).1 i).1.ctr.unexpected with
        | none => exact hframe3
        | some msg =>
            refine framePairT_trans _ _ _ _ hframe3
              (framePairT_congr_name _ _ _ _ ?_ (catchAll_frame env _ i msg))
            exact name_at_of_map_eq _ _ hframe3.1 i

theorem processEntity_frame (env : Env) (fuel : Nat) :
    ∀ (s : StepState) (i : Nat),
      framePairT s.manifest.tables (processEntity env fuel s i).1.manifest.tables
        (readEntry s.manifest i).name := by
  induction fuel with
  | zero => intro s i; exact framePairT_refl _ _
  | succ fuel2 ih =>
      intro s i
      simp only [processEntity]
      cases hio : (iterEntity env s i).2.2 with
      | finish => exact iterEntity_frame env s i
      | aborted => exact iterEntity_frame env s i
      | redo =>
          refine framePairT_trans _ _ _ _ (iterEntity_frame env s i)
            (framePairT_congr_name _ _ _ _ ?_ (ih (iterEntity env s i).1 i))
          exact name_at_of_map_eq _ _ (iterEntity_frame env s i).1 i

theorem getLast_some_append (l1 l2 : List Event) (x : Event)
    (h : l2.getLast? = some x) : (l1 ++ l2).getLast? = some x := by
  have hne : l2 ≠ [] := by
    intro hc
    rw [hc] at h
    exact Option.noConfusion h
  rw [List.getLast?_append_of_ne_nil l1 hne]
  exact h

theorem handleFailure_abort_trace (env : Env) (s : StepState) (i : Nat)
    (h : (handleFailure env s i).2.2 = IterOut.aborted) :
    (handleFailure env s i).2.1.getLast? = some Event.disconnect := by
  revert h
  simp only [handleFailure, persistM]
  cases env.onFailure s.ctr.failure (readEntry s.manifest i) with
  | retry => intro hc; exact absurd hc (by simp)
  | cont => intro hc; exact absurd hc (by simp)
  | abort =>
      intro _
      repeat first
        | rfl
        | refine getLast_some_append _ _ _ ?_

theorem catchAll_abort_trace (env : Env) (s : StepState) (i : Nat)
    (msg : String) (h : (catchAll env s i msg).2.2 = IterOut.aborted) :
    (catchAll env s i msg).2.1.getLast? = some Event.disconnect := by
  revert h
  simp only [catchAll, persistM]
  cases env.onFailure s.ctr.failure
      (readEntry (applySummary (updateTableEntry s.manifest
        (readEntry s.manifest i).name
        (fun e => { e with
          status := ProcessingStatus.failed
          extractionError := some msg }))) i) with
  | retry => intro hc; exact absurd hc (by simp)
  | cont => intro hc; exact absurd hc (by simp)
  | abort =>
      intro _
      repeat first
        | rfl
        | refine getLast_some_append _ _ _ ?_

theorem discoveryPhase_abort_trace (env : Env) (s : StepState) (i : Nat)
    (h : (discoveryPhase env s i).2.2 = some IterOut.aborted) :
    (discoveryPhase env s i).2.1.getLast? = some Event.disconnect := by
  revert h
  simp only [discoveryPhase]
  by_cases hadm : (readEntry s.manifest i).status = ProcessingStatus.pending ∨
      (readEntry s.manifest i).status = ProcessingStatus.failed ∨
      (readEntry s.manifest i).columns = none
  · rw [if_pos hadm]
    cases env.smoke s.ctr.smoke (readEntry s.manifest i).name with
    | ok cols => intro hc; exact absurd hc (by simp)
    | error msg =>
        intro hc
        simp only [Option.some.injEq] at hc
        repeat first
          | exact handleFailure_abort_trace env _ i hc
          | refine getLast_some_append _ _ _ ?_
  · rw [if_neg hadm]
    intro hc
    exact absurd hc (by simp)

theorem extractionPhase_abort_trace (env : Env) (s : StepState) (i : Nat)
    (h : (extractionPhase env s i).2.2 = some IterOut.aborted) :
    (extractionPhase env s i).2.1.getLast? = some Event.disconnect := by
  revert h
  simp only [extractionPhase]
  by_cases hadm : (readEntry s.manifest i).status = ProcessingStatus.discovered ∨
      ((readEntry s.manifest i).status = ProcessingStatus.failed ∧
        (readEntry s.manifest i).failurePhase = some Phase.extraction)
  · rw [if_pos hadm]
    cases (env.stream s.ctr.stream (readEntry s.manifest i).name).failure with
    | none => intro hc; exact absurd hc (by simp)
    | some msg =>
        intro hc
        simp only [Option.some.injEq] at hc
        repeat first
          | exact handleFailure_abort_trace env _ i hc
          | refine getLast_some_append _ _ _ ?_
  · rw [if_neg hadm]
    intro hc
    exact absurd hc (by simp)

theorem validationPhase_abort_trace (env : Env) (s : StepState) (i : Nat)
    (h : (validationPhase env s i).2.2 = some IterOut.aborted) :
    (validationPhase env s i).2.1.getLast? = some Event.disconnect := by
  revert h
  simp only [validationPhase]
  by_cases hadm : (readEntry s.manifest i).status = ProcessingStatus.extracted ∨
      ((readEntry s.manifest i).status = ProcessingStatus.failed ∧
        (readEntry s.manifest i).failurePhase = some Phase.validation)
  · rw [if_pos hadm]
    cases env.rowCount s.ctr.rowCount (readEntry s.manifest i).name with
    | ok n => intro hc; exact absurd hc (by simp)
    | error msg =>
        intro hc
        simp only [Option.some.injEq] at hc
        repeat first
          | exact handleFailure_abort_trace env _ i hc
          | refine getLast_some_append _ _ _ ?_
  · rw [if_neg hadm]
    intro hc
    exact absurd hc (by simp)

theorem iterEntity_abort_trace (env : Env) (s : StepState) (i : Nat)
    (h : (iterEntity env s i).2.2 = IterOut.aborted) :
    (iterEntity env s i).2.1.getLast? = some Event.disconnect := by
  revert h
  simp only [iterEntity]
  cases h1 : (discoveryPhase env s i).2.2 with
  | some out =>
      intro hc
      subst hc
      exact discoveryPhase_abort_trace env s i h1
  | none =>
    cases h2 : (extractionPhase env (discoveryPhase env s i).1 i).2.2 with
    | some out =>
        intro hc
        subst hc
        repeat first
          | exact extractionPhase_abort_trace env _ i h2
          | refine getLast_some_append _ _ _ ?_
    | none =>
      cases h3 : (validationPhase env (extractionPhase env (discoveryPhase env s i).1 i).1 i).2.2 with
      | some out =>
          intro hc
          subst hc
          repeat first
            | exact validationPhase_abort_trace env _ i h3
            | refine getLast_some_append _ _ _ ?_
      | none =>
        cases hu : env.unexpected
            (validationPhase env (extractionPhase env (discoveryPhase env s i).1 i).1 i).1.ctr.unexpected with
        | none => intro hc; exact absurd hc (by simp)
        | some msg =>
            intro hc
            repeat first
              | exact catchAll_abort_trace env _ i msg hc
              | refine getLast_some_append _ _ _ ?_

theorem processEntity_abort_trace (env : Env) (fuel : Nat) :
    ∀ (s : StepState) (i : Nat),
      (processEntity env fuel s i).2.2 = some true →
      (processEntity env fuel s i).2.1.getLast? = some Event.disconnect := by
  induction fuel with
  | zero => intro s i hc; exact absurd hc (by simp [processEntity])
  | succ fuel2 ih =>
      intro s i
      simp only [processEntity]
      cases hio : (iterEntity env s i).2.2 with
      | finish => intro hc; exact absurd hc (by simp)
      | aborted => intro _; exact iterEntity_abort_trace env s i hio
      | redo =>
          intro hc
          repeat first
            | exact ih (iterEntity env s i).1 i hc
            | refine getLast_some_append _ _ _ ?_

/-- C7: when the failure-decision collaborator answers `abort`, the
run stops at once — the rest of the table loop contributes nothing
(first conjunct: the loop's result IS the aborted entity's result, so
no phase of any later entity runs and the manifest is returned as it
stood), the last observable event is the connection release, and every
entity named differently from the aborted one holds exactly the record
it held before that entity's processing began. -/
theorem c7_abort_semantics (env : Env) (fuel : Nat) (s : StepState) (i : Nat)
    (rest : List Nat)
    (hterm : ¬((readEntry s.manifest i).status = ProcessingStatus.validated ∨
      (readEntry s.manifest i).status = ProcessingStatus.skipped))
    (hab : (processEntity env fuel s i).2.2 = some true) :
    processTables env fuel s (i :: rest) = processEntity env fuel s i ∧
    (processEntity env fuel s i).2.1.getLast? = some Event.disconnect ∧
    (∀ j, (readEntry s.manifest j).name ≠ (readEntry s.manifest i).name →
      readEntry (processEntity env fuel s i).1.manifest j =
        readEntry s.manifest j) := by
  refine ⟨?_, processEntity_abort_trace env fuel s i hab,
    fun j hj => (processEntity_frame env fuel s i).2 j hj⟩
  simp only [processTables]
  rw [if_neg hterm, hab]
  show ((processEntity env fuel s i).1, (processEntity env fuel s i).2.1,
    some true) = processEntity env fuel s i
  rw [← hab]

/-- Witness for C7: discovery of T1 fails, the collaborator aborts;
the loop over both tables equals T1's aborted processing alone, the
trace ends with the disconnect, and T2's record is untouched. -/
theorem c7_abort_semantics_witness :
    processTables envAbort 3 sTwoPending [0, 1] =
      processEntity envAbort 3 sTwoPending 0 ∧
    (processEntity envAbort 3 sTwoPending 0).2.1.getLast? =
      some Event.disconnect ∧
    readEntry (processEntity envAbort 3 sTwoPending 0).1.manifest 1 =
      readEntry sTwoPending.manifest 1 := by
  have h := c7_abort_semantics envAbort 3 sTwoPending 0 [1]
    (by decide) (by decide)
  exact ⟨h.1, h.2.1, h.2.2 1 (by decide)⟩

theorem presTerm_refl (l : List TableEntry) : presTerm l l :=
  fun _ _ _ h => h

theorem presTerm_trans (l l1 l2 : List TableEntry)
    (h1 : presTerm l l1) (h2 : presTerm l1 l2) : presTerm l l2 :=
  fun nm st hts hst => h2 nm st hts (h1 nm st hts hst)

theorem presTermEq (l l2 : List TableEntry)
    (h : ∀ nm, statusByName l2 nm = statusByName l nm) : presTerm l l2 :=
  fun nm st _ hst => (h nm).trans hst

theorem okDelta_mono (l0 l l2 : List TableEntry) (δ : List Event)
    (hp : presTerm l0 l) (h : okDelta l δ l2) : okDelta l0 δ l2 := by
  induction δ generalizing l0 l with
  | nil => exact presTerm_trans _ _ _ hp h
  | cons ev δ2 ih =>
      cases ev with
      | persist p => exact ⟨presTerm_trans _ _ _ hp h.1, h.2⟩
      | phase nm ph =>
          refine ⟨fun st hts hc => ?_, ih l0 l hp h.2⟩
          exact h.1 st hts (hp nm st hts hc)
      | failureCall r => exact ih l0 l hp h
      | decision d => exact ih l0 l hp h
      | disconnect => exact ih l0 l hp h

theorem okDelta_append (l l1 l2 : List TableEntry) (d1 d2 : List Event)
    (h1 : okDelta l d1 l1) (h2 : okDelta l1 d2 l2) :
    okDelta l (d1 ++ d2) l2 := by
  induction d1 generalizing l with
  | nil => exact okDelta_mono _ _ _ _ h1 h2
  | cons ev δ ih =>
      cases ev with
      | persist p => exact ⟨h1.1, ih p.tables h1.2⟩
      | phase nm ph => exact ⟨h1.1, ih l h1.2⟩
      | failureCall r => exact ih l h1
      | decision d => exact ih l h1
      | disconnect => exact ih l h1

theorem okDelta_refl (l : List TableEntry) : okDelta l [] l :=
  presTerm_refl l

/-- `updateFirst` with a name- and status-preserving update leaves
every `statusByName` read unchanged. -/
theorem statusByName_updateFirst_pres (l : List TableEntry) (nm : String)
    (f : TableEntry → TableEntry) (hfn : ∀ e, (f e).name = e.name)
    (hfs : ∀ e, (f e).status = e.status) (nm2 : String) :
    statusByName (updateFirst l nm f) nm2 = statusByName l nm2 := by
  induction l with
  | nil => rfl
  | cons e rest ih =>
      simp only [updateFirst]
      by_cases he : e.name = nm
      · rw [if_pos he]
        simp only [statusByName, hfn e, hfs e]
      · rw [if_neg he]
        simp only [statusByName, ih]

/-- `updateFirst` targeting a non-terminal (or absent) first match
preserves all terminal statuses. -/
theorem presTerm_updateFirst_nonterm (l : List TableEntry) (nm : String)
    (f : TableEntry → TableEntry) (hfn : ∀ e, (f e).name = e.name)
    (h : ∀ st, termStatus st → statusByName l nm ≠ some st) :
    presTerm l (updateFirst l nm f) := by
  induction l with
  | nil => exact presTerm_refl _
  | cons e rest ih =>
      intro nm2 st hts hst
      simp only [statusByName] at hst
      simp only [updateFirst]
      by_cases he : e.name = nm
      · rw [if_pos he]
        by_cases he2 : e.name = nm2
        · rw [if_pos he2] at hst
          exfalso
          refine h st hts ?_
          simp only [statusByName, if_pos he]
          exact hst
        · rw [if_neg he2] at hst
          simp only [statusByName]
          rw [if_neg (by rw [hfn e]; exact he2)]
          exact hst
      · rw [if_neg he]
        by_cases he2 : e.name = nm2
        · rw [if_pos he2] at hst
          simp only [statusByName, if_pos he2]
          exact hst
        · rw [if_neg he2] at hst
          simp only [statusByName, if_neg he2]
          refine ih ?_ nm2 st hts hst
          intro st2 hts2 hc
          refine h st2 hts2 ?_
          simp only [statusByName, if_neg he]
          exact hc

/-- `updateFirst` writing a constant status when the name is present. -/
theorem statusByName_updateFirst_const (l : List TableEntry) (nm : String)
    (f : TableEntry → TableEntry) (c : ProcessingStatus)
    (hfn : ∀ e, (f e).name = e.name) (hfc : ∀ e, (f e).status = c)
    (st0 : ProcessingStatus) (h : statusByName l nm = some st0) :
    statusByName (updateFirst l nm f) nm = some c := by
  induction l with
  | nil => exact absurd h (by simp [statusByName])
  | cons e rest ih =>
      simp only [statusByName] at h
      simp only [updateFirst]
      by_cases he : e.name = nm
      · rw [if_pos he]
        simp only [statusByName]
        rw [if_pos (by rw [hfn e]; exact he), hfc e]
      · rw [if_neg he]
        rw [if_neg he] at h
        simp only [statusByName, if_neg he]
        exact ih h

/-- Under distinct names, the first match of the name at position `i`
is position `i` itself. -/
theorem statusByName_getD (l : List TableEntry) (i : Nat)
    (hN : (l.map TableEntry.name).Nodup) (hi : i < l.length) :
    statusByName l (l.getD i defaultEntry).name =
      some (l.getD i defaultEntry).status := by
  induction l generalizing i with
  | nil => simp at hi
  | cons e rest ih =>
      rw [List.map_cons, List.nodup_cons] at hN
      cases i with
      | zero => simp [statusByName]
      | succ j =>
          have hj : j < rest.length := by simpa using hi
          rw [getD_cons_succ_entry]
          simp only [statusByName]
          rw [if_neg (fun hc => hN.1 (by rw [hc]; exact getD_name_mem rest j hj))]
          exact ih j hN.2 hj

theorem okDelta_after (δ : List Event) :
    ∀ (l l2 : List TableEntry) (k : Nat) (mk : Manifest),
      okDelta l δ l2 → δ.get? k = some (Event.persist mk) →
      okDelta mk.tables (δ.drop (k + 1)) l2 := by
  induction δ with
  | nil => intro l l2 k mk _ hk; exact absurd hk (by simp)
  | cons ev δ2 ih =>
      intro l l2 k mk h hk
      cases k with
      | zero =>
          cases ev with
          | persist p =>
              simp only [List.get?] at hk
              injection hk with hk2
              injection hk2 with hk3
              subst hk3
              exact h.2
          | phase nm ph => exact absurd hk (by simp [List.get?])
          | failureCall r => exact absurd hk (by simp [List.get?])
          | decision d => exact absurd hk (by simp [List.get?])
          | disconnect => exact absurd hk (by simp [List.get?])
      | succ k2 =>
          have hk2 : δ2.get? k2 = some (Event.persist mk) := hk
          show okDelta mk.tables (δ2.drop (k2 + 1)) l2
          cases ev with
          | persist p => exact ih p.tables l2 k2 mk h.2 hk2
          | phase nm ph => exact ih l l2 k2 mk h.2 hk2
          | failureCall r => exact ih l l2 k2 mk h hk2
          | decision d => exact ih l l2 k2 mk h hk2
          | disconnect => exact ih l l2 k2 mk h hk2

theorem okDelta_terminal_propagates (δ : List Event) :
    ∀ (l l2 : List TableEntry) (nm : String) (st : ProcessingStatus),
      okDelta l δ l2 → termStatus st → statusByName l nm = some st →
      statusByName l2 nm = some st ∧
      (∀ j, persistStatusAt δ j nm = none ∨ persistStatusAt δ j nm = some st) ∧
      (∀ j ph, δ.get? j ≠ some (Event.phase nm ph)) := by
  induction δ with
  | nil =>
      intro l l2 nm st h hts hst
      exact ⟨h nm st hts hst, fun j => Or.inl rfl, fun j ph => by simp⟩
  | cons ev δ2 ih =>
      intro l l2 nm st h hts hst
      cases ev with
      | persist p =>
          have hp : statusByName p.tables nm = some st := h.1 nm st hts hst
          have hrec := ih p.tables l2 nm st h.2 hts hp
          refine ⟨hrec.1, fun j => ?_, fun j ph => ?_⟩
          · cases j with
            | zero =>
                right
                simp only [persistStatusAt, List.get?]
                exact hp
            | succ j2 => exact hrec.2.1 j2
          · cases j with
            | zero => simp [List.get?]
            | succ j2 => exact hrec.2.2 j2 ph
      | phase nm2 ph2 =>
          have hrec := ih l l2 nm st h.2 hts hst
          refine ⟨hrec.1, fun j => ?_, fun j ph => ?_⟩
          · cases j with
            | zero => left; rfl
            | succ j2 => exact hrec.2.1 j2
          · cases j with
            | zero =>
                simp only [List.get?, ne_eq, Option.some.injEq]
                intro hc
                injection hc with hc1 hc2
                exact h.1 st hts (by rw [← hc1] at hst; exact hst)
            | succ j2 => exact hrec.2.2 j2 ph
      | failureCall r =>
          have hrec := ih l l2 nm st h hts hst
          refine ⟨hrec.1, fun j => ?_, fun j ph => ?_⟩
          · cases j with
            | zero => left; rfl
            | succ j2 => exact hrec.2.1 j2
          · cases j with
            | zero => simp [List.get?]
            | succ j2 => exact hrec.2.2 j2 ph
      | decision d =>
          have hrec := ih l l2 nm st h hts hst
          refine ⟨hrec.1, fun j => ?_, fun j ph => ?_⟩
          · cases j with
            | zero => left; rfl
            | succ j2 => exact hrec.2.1 j2
          · cases j with
            | zero => simp [List.get?]
            | succ j2 => exact hrec.2.2 j2 ph
      | disconnect =>
          have hrec := ih l l2 nm st h hts hst
          refine ⟨hrec.1, fun j => ?_, fun j ph => ?_⟩
          · cases j with
            | zero => left; rfl
            | succ j2 => exact hrec.2.1 j2
          · cases j with
            | zero => simp [List.get?]
            | succ j2 => exact hrec.2.2 j2 ph

theorem extractLoop_statusByName (mx : Nat) (nm : String) (rows : List Row) :
    ∀ (m : Manifest) (w : ExcelWriterState) (rc : Nat) (nm2 : String),
      statusByName (extractLoop mx nm rows m w rc).1.tables nm2 =
        statusByName m.tables nm2 := by
  induction rows with
  | nil => intro m w rc nm2; rfl
  | cons r rest ih =>
      intro m w rc nm2
      simp only [extractLoop]
      by_cases hc : (rc + 1) % 1000 = 0
      · rw [if_pos hc]
        rw [ih]
        refine statusByName_updateFirst_pres _ _ _ ?_ ?_ nm2
        · intro e; rfl
        · intro e; rfl
      · rw [if_neg hc]
        exact ih m (writeRow mx w r) (rc + 1) nm2

theorem handleFailure_okDelta (env : Env) (s : StepState) (i : Nat)
    (nm : String) (hnm : (readEntry s.manifest i).name = nm)
    (hsb : statusByName s.manifest.tables nm = some ProcessingStatus.failed) :
    okDelta s.manifest.tables (handleFailure env s i).2.1
      (handleFailure env s i).1.manifest.tables ∧
    ((handleFailure env s i).2.2 = IterOut.redo →
      statusByName (handleFailure env s i).1.manifest.tables nm =
        some ProcessingStatus.failed) := by
  subst hnm
  simp only [handleFailure, readEntry, updateTableEntry, applySummary, persistM] at hsb ⊢
  cases env.onFailure s.ctr.failure (s.manifest.tables.getD i defaultEntry) with
  | retry =>
      simp only [List.cons_append, List.nil_append]
      have hpres1 : ∀ nm2, statusByName (updateFirst s.manifest.tables
          (s.manifest.tables.getD i defaultEntry).name
          (fun e => { e with userDecision := some UserDecision.retry })) nm2 =
          statusByName s.manifest.tables nm2 := by
        intro nm2
        refine statusByName_updateFirst_pres _ _ _ ?_ ?_ nm2
        · intro e; rfl
        · intro e; rfl
      refine ⟨⟨presTermEq _ _ hpres1, ?_⟩, fun _ => ?_⟩
      · show presTerm _ _
        refine presTermEq _ _ ?_
        intro nm2
        refine statusByName_updateFirst_pres _ _ _ ?_ ?_ nm2
        · intro e; rfl
        · intro e; rfl
      · refine Eq.trans ?_ ((hpres1 _).trans hsb)
        refine statusByName_updateFirst_pres _ _ _ ?_ ?_ _
        · intro e; rfl
        · intro e; rfl
  | abort =>
      simp only [List.cons_append, List.nil_append]
      have hpres1 : ∀ nm2, statusByName (updateFirst s.manifest.tables
          (s.manifest.tables.getD i defaultEntry).name
          (fun e => { e with userDecision := some UserDecision.abort })) nm2 =
          statusByName s.manifest.tables nm2 := by
        intro nm2
        refine statusByName_updateFirst_pres _ _ _ ?_ ?_ nm2
        · intro e; rfl
        · intro e; rfl
      exact ⟨⟨presTermEq _ _ hpres1, presTerm_refl _⟩,
        fun hc => absurd hc (by simp)⟩
  | cont =>
      simp only [List.cons_append, List.nil_append]
      have hpres1 : ∀ nm2, statusByName (updateFirst s.manifest.tables
          (s.manifest.tables.getD i defaultEntry).name
          (fun e => { e with userDecision := some UserDecision.cont })) nm2 =
          statusByName s.manifest.tables nm2 := by
        intro nm2
        refine statusByName_updateFirst_pres _ _ _ ?_ ?_ nm2
        · intro e; rfl
        · intro e; rfl
      refine ⟨⟨presTermEq _ _ hpres1, ⟨?_, presTerm_refl _⟩⟩,
        fun hc => absurd hc (by simp)⟩
      refine presTerm_updateFirst_nonterm _ _ _ ?_ ?_
      · intro e; rfl
      · intro st hts hc
        rw [hpres1 _, hsb] at hc
        injection hc with hc2
        rw [← hc2] at hts
        exact absurd hts (by decide)

/-- Elaboration-friendly restatement of the okDelta half of
`handleFailure_okDelta`, with the starting table list exposed. -/
theorem handleFailure_okDelta_any (env : Env) (s : StepState) (i : Nat)
    (nm : String) (hnm : (readEntry s.manifest i).name = nm)
    (hsb : statusByName s.manifest.tables nm = some ProcessingStatus.failed)
    (l : List TableEntry) (hl : l = s.manifest.tables) :
    okDelta l (handleFailure env s i).2.1
      (handleFailure env s i).1.manifest.tables := by
  rw [hl]
  exact (handleFailure_okDelta env s i nm hnm hsb).1

theorem discoveryPhase_okDelta (env : Env) (s : StepState) (i : Nat)
    (hsb : ∃ st0, statusByName s.manifest.tables (readEntry s.manifest i).name =
      some st0 ∧ ¬ termStatus st0) :
    okDelta s.manifest.tables (discoveryPhase env s i).2.1
      (discoveryPhase env s i).1.manifest.tables ∧
    ((discoveryPhase env s i).2.2 = some IterOut.redo →
      statusByName (discoveryPhase env s i).1.manifest.tables
        (readEntry s.manifest i).name = some ProcessingStatus.failed) ∧
    ((discoveryPhase env s i).2.2 = none →
      ∃ st1, statusByName (discoveryPhase env s i).1.manifest.tables
        (readEntry s.manifest i).name = some st1 ∧ ¬ termStatus st1) := by
  obtain ⟨st0, hst0, hnt0⟩ := hsb
  simp only [readEntry] at hst0 ⊢
  simp only [discoveryPhase, readEntry, updateTableEntry, applySummary, persistM]
  by_cases hadm : (s.manifest.tables.getD i defaultEntry).status =
      ProcessingStatus.pending ∨
      (s.manifest.tables.getD i defaultEntry).status = ProcessingStatus.failed ∨
      (s.manifest.tables.getD i defaultEntry).columns = none
  · rw [if_pos hadm]
    have hphase : ∀ st, termStatus st →
        statusByName s.manifest.tables
          (s.manifest.tables.getD i defaultEntry).name ≠ some st := by
      intro st hts hc
      rw [hst0] at hc
      injection hc with hc2
      rw [hc2] at hnt0
      exact hnt0 hts
    have hconst1 := statusByName_updateFirst_const s.manifest.tables
      (s.manifest.tables.getD i defaultEntry).name
      (fun e => { e with status := ProcessingStatus.discovering })
      ProcessingStatus.discovering (fun e => rfl) (fun e => rfl) st0 hst0
    have hpres1 : presTerm s.manifest.tables
        (updateFirst s.manifest.tables
          (s.manifest.tables.getD i defaultEntry).name
          (fun e => { e with status := ProcessingStatus.discovering })) := by
      refine presTerm_updateFirst_nonterm _ _ _ ?_ hphase
      intro e; rfl
    cases hsm : env.smoke s.ctr.smoke (s.manifest.tables.getD i defaultEntry).name with
    | ok cols =>
        simp only [List.cons_append, List.nil_append]
        have hconst2 := statusByName_updateFirst_const _
          (s.manifest.tables.getD i defaultEntry).name
          (fun e => { e with
            status := ProcessingStatus.discovered
            columns := some cols
            columnCount := some cols.length })
          ProcessingStatus.discovered (fun e => rfl) (fun e => rfl)
          ProcessingStatus.discovering hconst1
        refine ⟨⟨hphase, hpres1, ?_, presTerm_refl _⟩,
          fun hc => absurd hc (by simp), fun _ => ?_⟩
        · refine presTerm_updateFirst_nonterm _ _ _ ?_ ?_
          · intro e; rfl
          · intro st hts hc
            rw [hconst1] at hc
            injection hc with hc2
            rw [← hc2] at hts
            exact absurd hts (by decide)
        · exact ⟨ProcessingStatus.discovered, hconst2, by decide⟩
    | error msg =>
        simp only [List.cons_append, List.nil_append]
        have hconst2 := statusByName_updateFirst_const _
          (s.manifest.tables.getD i defaultEntry).name
          (fun e => { e with
            status := ProcessingStatus.failed
            failurePhase := some Phase.discovery
            discoveryError := some msg })
          ProcessingStatus.failed (fun e => rfl) (fun e => rfl)
          ProcessingStatus.discovering hconst1
        have hname2 : (readEntry { manifest := applySummary (updateTableEntry
            (applySummary (updateTableEntry s.manifest
              (s.manifest.tables.getD i defaultEntry).name
              (fun e => { e with status := ProcessingStatus.discovering })))
            (s.manifest.tables.getD i defaultEntry).name
            (fun e => { e with
              status := ProcessingStatus.failed
              failurePhase := some Phase.discovery
              discoveryError := some msg })), ctr := { s.ctr with smoke := s.ctr.smoke + 1 } : StepState}.manifest i).name =
            (s.manifest.tables.getD i defaultEntry).name := by
          show TableEntry.name _ = TableEntry.name _
          refine (updateFirst_getD_field _ _ _ i TableEntry.name ?_).trans
            (updateFirst_getD_field _ _ _ i TableEntry.name ?_)
          · intro e; rfl
          · intro e; rfl
        have hhf := handleFailure_okDelta env
          { manifest := applySummary (updateTableEntry
              (applySummary (updateTableEntry s.manifest
                (s.manifest.tables.getD i defaultEntry).name
                (fun e => { e with status := ProcessingStatus.discovering })))
              (s.manifest.tables.getD i defaultEntry).name
              (fun e => { e with
                status := ProcessingStatus.failed
                failurePhase := some Phase.discovery
                discoveryError := some msg }))
            ctr := { s.ctr with smoke := s.ctr.smoke + 1 } } i
          (s.manifest.tables.getD i defaultEntry).name hname2 hconst2
        refine ⟨⟨hphase, hpres1, ?_, hhf.1⟩, fun hc => ?_, fun hc => absurd hc (by simp)⟩
        · refine presTerm_updateFirst_nonterm _ _ _ ?_ ?_
          · intro e; rfl
          · intro st hts hc
            rw [hconst1] at hc
            injection hc with hc2
            rw [← hc2] at hts
            exact absurd hts (by decide)
        · simp only [Option.some.injEq] at hc
          exact hhf.2 hc
  · rw [if_neg hadm]
    refine ⟨okDelta_refl _, fun hc => absurd hc (by simp), fun _ => ?_⟩
    exact ⟨st0, hst0, hnt0⟩

theorem extractionPhase_okDelta (env : Env) (s : StepState) (i : Nat)
    (hsb : ∃ st0, statusByName s.manifest.tables (readEntry s.manifest i).name =
      some st0 ∧ ¬ termStatus st0) :
    okDelta s.manifest.tables (extractionPhase env s i).2.1
      (extractionPhase env s i).1.manifest.tables ∧
    ((extractionPhase env s i).2.2 = some IterOut.redo →
      statusByName (extractionPhase env s i).1.manifest.tables
        (readEntry s.manifest i).name = some ProcessingStatus.failed) ∧
    ((extractionPhase env s i).2.2 = none →
      ∃ st1, statusByName (extractionPhase env s i).1.manifest.tables
        (readEntry s.manifest i).name = some st1 ∧ ¬ termStatus st1) := by
  obtain ⟨st0, hst0, hnt0⟩ := hsb
  simp only [readEntry] at hst0 ⊢
  simp only [extractionPhase, readEntry, updateTableEntry, applySummary, persistM]
  by_cases hadm : (s.manifest.tables.getD i defaultEntry).status =
      ProcessingStatus.discovered ∨
      ((s.manifest.tables.getD i defaultEntry).status = ProcessingStatus.failed ∧
        (s.manifest.tables.getD i defaultEntry).failurePhase = some Phase.extraction)
  · rw [if_pos hadm]
    have hphase : ∀ st, termStatus st →
        statusByName s.manifest.tables
          (s.manifest.tables.getD i defaultEntry).name ≠ some st := by
      intro st hts hc
      rw [hst0] at hc
      injection hc with hc2
      rw [hc2] at hnt0
      exact hnt0 hts
    have hconst1 := statusByName_updateFirst_const s.manifest.tables
      (s.manifest.tables.getD i defaultEntry).name
      (fun e => { e with status := ProcessingStatus.extracting })
      ProcessingStatus.extracting (fun e => rfl) (fun e => rfl) st0 hst0
    have hpres1 : presTerm s.manifest.tables
        (updateFirst s.manifest.tables
          (s.manifest.tables.getD i defaultEntry).name
          (fun e => { e with status := ProcessingStatus.extracting })) := by
      refine presTerm_updateFirst_nonterm _ _ _ ?_ hphase
      intro e; rfl
    cases hsm : (env.stream s.ctr.stream (s.manifest.tables.getD i defaultEntry).name).failure with
    | none =>
        simp only [List.cons_append, List.nil_append]
        refine ⟨⟨hphase, hpres1, ?_, presTerm_refl _⟩,
          fun hc => absurd hc (by simp), fun _ => ?_⟩
        · refine presTerm_trans _ _ _ ?_ (presTerm_updateFirst_nonterm _ _ _ ?_ ?_)
          · exact presTermEq _ _ (fun nm2 => extractLoop_statusByName _ _ _ _ _ _ nm2)
          · intro e; rfl
          · intro st hts hc
            rw [extractLoop_statusByName, hconst1] at hc
            injection hc with hc2
            rw [← hc2] at hts
            exact absurd hts (by decide)
        · refine ⟨ProcessingStatus.extracted, ?_, by decide⟩
          refine (statusByName_updateFirst_const _ _ _
            ProcessingStatus.extracted ?_ ?_ ProcessingStatus.extracting ?_)
          · intro e; rfl
          · intro e; rfl
          · rw [extractLoop_statusByName]
            exact hconst1
    | some msg =>
        simp only [List.cons_append, List.nil_append]
        have hloopst : statusByName (extractLoop env.maxRows
            (s.manifest.tables.getD i defaultEntry).name
            (env.stream s.ctr.stream (s.manifest.tables.getD i defaultEntry).name).rows
            (applySummary (updateTableEntry s.manifest
              (s.manifest.tables.getD i defaultEntry).name
              (fun e => { e with status := ProcessingStatus.extracting })))
            (createExcelWriter (s.manifest.tables.getD i defaultEntry).name
              ((readEntry (applySummary (updateTableEntry s.manifest
                (s.manifest.tables.getD i defaultEntry).name
                (fun e => { e with status := ProcessingStatus.extracting }))) i).columns.getD []))
            0).1.tables (s.manifest.tables.getD i defaultEntry).name =
            some ProcessingStatus.extracting := by
          rw [extractLoop_statusByName]
          exact hconst1
        simp only [readEntry] at hloopst
        have hconst2 := statusByName_updateFirst_const _
          (s.manifest.tables.getD i defaultEntry).name
          (fun e => { e with
            status := ProcessingStatus.failed
            failurePhase := some Phase.extraction
            extractionError := some msg })
          ProcessingStatus.failed (fun e => rfl) (fun e => rfl)
          ProcessingStatus.extracting hloopst
        refine ⟨⟨hphase, hpres1, ?_, ?_⟩, fun hc => ?_, fun hc => absurd hc (by simp)⟩
        · refine presTerm_trans _ _ _ ?_ (presTerm_updateFirst_nonterm _ _ _ ?_ ?_)
          · exact presTermEq _ _ (fun nm2 => extractLoop_statusByName _ _ _ _ _ _ nm2)
          · intro e; rfl
          · intro st hts hc
            have hcc := (extractLoop_statusByName _ _ _ _ _ _ _).symm.trans hc
            dsimp only at hcc
            rw [hconst1] at hcc
            injection hcc with hc2
            rw [← hc2] at hts
            exact absurd hts (by decide)
        · refine handleFailure_okDelta_any env _ i
            (s.manifest.tables.getD i defaultEntry).name ?_ ?_ _ ?_
          · show TableEntry.name _ = TableEntry.name _
            refine (updateFirst_getD_field _ _ _ i TableEntry.name ?_).trans
              ((name_at_of_map_eq _ _ (extractLoop_frame _ _ _ _ _ _).1 i).trans
                (updateFirst_getD_field _ _ _ i TableEntry.name ?_))
            · intro e; rfl
            · intro e; rfl
          · exact hconst2
          · rfl
        · simp only [Option.some.injEq] at hc
          refine (handleFailure_okDelta env _ i
            (s.manifest.tables.getD i defaultEntry).name ?_ ?_).2 hc
          · show TableEntry.name _ = TableEntry.name _
            refine (updateFirst_getD_field _ _ _ i TableEntry.name ?_).trans
              ((name_at_of_map_eq _ _ (extractLoop_frame _ _ _ _ _ _).1 i).trans
                (updateFirst_getD_field _ _ _ i TableEntry.name ?_))
            · intro e; rfl
            · intro e; rfl
          · exact hconst2
  · rw [if_neg hadm]
    refine ⟨okDelta_refl _, fun hc => absurd hc (by simp), fun _ => ?_⟩
    exact ⟨st0, hst0, hnt0⟩

theorem validationPhase_okDelta (env : Env) (s : StepState) (i : Nat)
    (hsb : ∃ st0, statusByName s.manifest.tables (readEntry s.manifest i).name =
      some st0 ∧ ¬ termStatus st0) :
    okDelta s.manifest.tables (validationPhase env s i).2.1
      (validationPhase env s i).1.manifest.tables ∧
    ((validationPhase env s i).2.2 = some IterOut.redo →
      statusByName (validationPhase env s i).1.manifest.tables
        (readEntry s.manifest i).name = some ProcessingStatus.failed) := by
  obtain ⟨st0, hst0, hnt0⟩ := hsb
  simp only [readEntry] at hst0 ⊢
  simp only [validationPhase, readEntry, updateTableEntry, applySummary, persistM]
  by_cases hadm : (s.manifest.tables.getD i defaultEntry).status =
      ProcessingStatus.extracted ∨
      ((s.manifest.tables.getD i defaultEntry).status = ProcessingStatus.failed ∧
        (s.manifest.tables.getD i defaultEntry).failurePhase = some Phase.validation)
  · rw [if_pos hadm]
    have hphase : ∀ st, termStatus st →
        statusByName s.manifest.tables
          (s.manifest.tables.getD i defaultEntry).name ≠ some st := by
      intro st hts hc
      rw [hst0] at hc
      injection hc with hc2
      rw [hc2] at hnt0
      exact hnt0 hts
    have hconst1 := statusByName_updateFirst_const s.manifest.tables
      (s.manifest.tables.getD i defaultEntry).name
      (fun e => { e with status := ProcessingStatus.validating })
      ProcessingStatus.validating (fun e => rfl) (fun e => rfl) st0 hst0
    have hpres1 : presTerm s.manifest.tables
        (updateFirst s.manifest.tables
          (s.manifest.tables.getD i defaultEntry).name
          (fun e => { e with status := ProcessingStatus.validating })) := by
      refine presTerm_updateFirst_nonterm _ _ _ ?_ hphase
      intro e; rfl
    cases hcq : env.rowCount s.ctr.rowCount (s.manifest.tables.getD i defaultEntry).name with
    | ok n =>
        simp only [List.cons_append, List.nil_append]
        refine ⟨⟨hphase, hpres1, ?_, presTerm_refl _⟩,
          fun hc => absurd hc (by simp)⟩
        refine presTerm_updateFirst_nonterm _ _ _ ?_ ?_
        · intro e; rfl
        · intro st hts hc
          rw [hconst1] at hc
          injection hc with hc2
          rw [← hc2] at hts
          exact absurd hts (by decide)
    | error msg =>
        simp only [List.cons_append, List.nil_append]
        have hconst2 := statusByName_updateFirst_const _
          (s.manifest.tables.getD i defaultEntry).name
          (fun e => { e with
            status := ProcessingStatus.failed
            failurePhase := some Phase.validation
            validationError := some msg })
          ProcessingStatus.failed (fun e => rfl) (fun e => rfl)
          ProcessingStatus.validating hconst1
        refine ⟨⟨hphase, hpres1, ?_, ?_⟩, fun hc => ?_⟩
        · refine presTerm_updateFirst_nonterm _ _ _ ?_ ?_
          · intro e; rfl
          · intro st hts hc
            rw [hconst1] at hc
            injection hc with hc2
            rw [← hc2] at hts
            exact absurd hts (by decide)
        · refine handleFailure_okDelta_any env _ i
            (s.manifest.tables.getD i defaultEntry).name ?_ ?_ _ ?_
          · show TableEntry.name _ = TableEntry.name _
            refine (updateFirst_getD_field _ _ _ i TableEntry.name ?_).trans
              (updateFirst_getD_field _ _ _ i TableEntry.name ?_)
            · intro e; rfl
            · intro e; rfl
          · exact hconst2
          · rfl
        · simp only [Option.some.injEq] at hc
          refine (handleFailure_okDelta env _ i
            (s.manifest.tables.getD i defaultEntry).name ?_ ?_).2 hc
          · show TableEntry.name _ = TableEntry.name _
            refine (updateFirst_getD_field _ _ _ i TableEntry.name ?_).trans
              (updateFirst_getD_field _ _ _ i TableEntry.name ?_)
            · intro e; rfl
            · intro e; rfl
          · exact hconst2
  · rw [if_neg hadm]
    exact ⟨okDelta_refl _, fun hc => absurd hc (by simp)⟩

theorem iterEntity_okDelta (env : Env) (s : StepState) (i : Nat)
    (hsb : ∃ st0, statusByName s.manifest.tables (readEntry s.manifest i).name =
      some st0 ∧ ¬ termStatus st0)
    (hU : ∀ k, env.unexpected k = none) :
    okDelta s.manifest.tables (iterEntity env s i).2.1
      (iterEntity env s i).1.manifest.tables ∧
    ((iterEntity env s i).2.2 = IterOut.redo →
      statusByName (iterEntity env s i).1.manifest.tables
        (readEntry s.manifest i).name = some ProcessingStatus.failed) := by
  have h1 := discoveryPhase_okDelta env s i hsb
  cases hd1 : (discoveryPhase env s i).2.2 with
  | some out =>
      have he1 : (iterEntity env s i).2.1 = (discoveryPhase env s i).2.1 := by
        simp only [iterEntity, hd1]
      have he2 : (iterEntity env s i).1.manifest =
          (discoveryPhase env s i).1.manifest := by
        simp only [iterEntity, hd1]
      have he3 : (iterEntity env s i).2.2 = out := by
        simp only [iterEntity, hd1]
      rw [he1, he2, he3]
      exact ⟨h1.1, fun hredo => h1.2.1 (hd1.trans (by rw [hredo]))⟩
  | none =>
      have hname1 : (readEntry (discoveryPhase env s i).1.manifest i).name =
          (readEntry s.manifest i).name := by
        simp only [readEntry]
        exact name_at_of_map_eq _ _ (discoveryPhase_frame env s i).1 i
      obtain ⟨st1, hst1, hnt1⟩ := h1.2.2 hd1
      have h2 := extractionPhase_okDelta env (discoveryPhase env s i).1 i
        ⟨st1, by rw [hname1]; exact hst1, hnt1⟩
      rw [hname1] at h2
      cases hd2 : (extractionPhase env (discoveryPhase env s i).1 i).2.2 with
      | some out =>
          have he1 : (iterEntity env s i).2.1 = (discoveryPhase env s i).2.1 ++
              (extractionPhase env (discoveryPhase env s i).1 i).2.1 := by
            simp only [iterEntity, hd1, hd2]
          have he2 : (iterEntity env s i).1.manifest =
              (extractionPhase env (discoveryPhase env s i).1 i).1.manifest := by
            simp only [iterEntity, hd1, hd2]
          have he3 : (iterEntity env s i).2.2 = out := by
            simp only [iterEntity, hd1, hd2]
          rw [he1, he2, he3]
          exact ⟨okDelta_append _ _ _ _ _ h1.1 h2.1,
            fun hredo => h2.2.1 (hd2.trans (by rw [hredo]))⟩
      | none =>
          have hname2 : (readEntry
              (extractionPhase env (discoveryPhase env s i).1 i).1.manifest i).name =
              (readEntry s.manifest i).name := by
            simp only [readEntry]
            refine (name_at_of_map_eq _ _
              (extractionPhase_frame env (discoveryPhase env s i).1 i).1 i).trans ?_
            exact name_at_of_map_eq _ _ (discoveryPhase_frame env s i).1 i
          obtain ⟨st2, hst2, hnt2⟩ := h2.2.2 hd2
          have h3 := validationPhase_okDelta env
            (extractionPhase env (discoveryPhase env s i).1 i).1 i
            ⟨st2, by rw [hname2]; exact hst2, hnt2⟩
          rw [hname2] at h3
          cases hd3 : (validationPhase env
              (extractionPhase env (discoveryPhase env s i).1 i).1 i).2.2 with
          | some out =>
              have he1 : (iterEntity env s i).2.1 =
                  (discoveryPhase env s i).2.1 ++
                  (extractionPhase env (discoveryPhase env s i).1 i).2.1 ++
                  (validationPhase env
                    (extractionPhase env (discoveryPhase env s i).1 i).1 i).2.1 := by
                simp only [iterEntity, hd1, hd2, hd3]
              have he2 : (iterEntity env s i).1.manifest =
                  (validationPhase env
                    (extractionPhase env (discoveryPhase env s i).1 i).1 i).1.manifest := by
                simp only [iterEntity, hd1, hd2, hd3]
              have he3 : (iterEntity env s i).2.2 = out := by
                simp only [iterEntity, hd1, hd2, hd3]
              rw [he1, he2, he3]
              exact ⟨okDelta_append _ _ _ _ _
                  (okDelta_append _ _ _ _ _ h1.1 h2.1) h3.1,
                fun hredo => h3.2 (hd3.trans (by rw [hredo]))⟩
          | none =>
              have he1 : (iterEntity env s i).2.1 =
                  (discoveryPhase env s i).2.1 ++
                  (extractionPhase env (discoveryPhase env s i).1 i).2.1 ++
                  (validationPhase env
                    (extractionPhase env (discoveryPhase env s i).1 i).1 i).2.1 := by
                simp only [iterEntity, hd1, hd2, hd3, hU]
              have he2 : (iterEntity env s i).1.manifest =
                  (validationPhase env
                    (extractionPhase env (discoveryPhase env s i).1 i).1 i).1.manifest := by
                simp only [iterEntity, hd1, hd2, hd3, hU]
              have he3 : (iterEntity env s i).2.2 = IterOut.finish := by
                simp only [iterEntity, hd1, hd2, hd3, hU]
              rw [he1, he2, he3]
              exact ⟨okDelta_append _ _ _ _ _
                  (okDelta_append _ _ _ _ _ h1.1 h2.1) h3.1,
                fun hc => absurd hc (by simp)⟩

theorem processEntity_okDelta (env : Env) (fuel : Nat)
    (hU : ∀ k, env.unexpected k = none) :
    ∀ (s : StepState) (i : Nat),
      (∃ st0, statusByName s.manifest.tables (readEntry s.manifest i).name =
        some st0 ∧ ¬ termStatus st0) →
      okDelta s.manifest.tables (processEntity env fuel s i).2.1
        (processEntity env fuel s i).1.manifest.tables := by
  induction fuel with
  | zero => intro s i _; exact okDelta_refl _
  | succ fuel2 ih =>
      intro s i hsb
      simp only [processEntity]
      cases hio : (iterEntity env s i).2.2 with
      | finish => exact (iterEntity_okDelta env s i hsb hU).1
      | aborted => exact (iterEntity_okDelta env s i hsb hU).1
      | redo =>
          have hit := iterEntity_okDelta env s i hsb hU
          have hname : (readEntry (iterEntity env s i).1.manifest i).name =
              (readEntry s.manifest i).name := by
            simp only [readEntry]
            exact name_at_of_map_eq _ _ (iterEntity_frame env s i).1 i
          refine okDelta_append _ _ _ _ _ hit.1 (ih (iterEntity env s i).1 i ?_)
          exact ⟨ProcessingStatus.failed,
            by rw [hname]; exact hit.2 hio, by decide⟩

theorem processTables_okDelta (env : Env) (fuel : Nat)
    (hU : ∀ k, env.unexpected k = none) :
    ∀ (idxs : List Nat) (s : StepState),
      (s.manifest.tables.map TableEntry.name).Nodup →
      (∀ i ∈ idxs, i < s.manifest.tables.length) →
      okDelta s.manifest.tables (processTables env fuel s idxs).2.1
        (processTables env fuel s idxs).1.manifest.tables := by
  intro idxs
  induction idxs with
  | nil => intro s _ _; exact okDelta_refl _
  | cons i rest ih =>
      intro s hN hlen
      simp only [processTables]
      by_cases hterm : (readEntry s.manifest i).status = ProcessingStatus.validated ∨
          (readEntry s.manifest i).status = ProcessingStatus.skipped
      · rw [if_pos hterm]
        exact ih s hN (fun j hj => hlen j (List.mem_cons_of_mem _ hj))
      · rw [if_neg hterm]
        have hi : i < s.manifest.tables.length := hlen i (List.mem_cons_self _ _)
        have hsb : ∃ st0, statusByName s.manifest.tables
            (readEntry s.manifest i).name = some st0 ∧ ¬ termStatus st0 := by
          refine ⟨(readEntry s.manifest i).status, ?_, fun hts => hterm hts⟩
          simp only [readEntry]
          exact statusByName_getD _ i hN hi
        have hpe := processEntity_okDelta env fuel hU s i hsb
        have hmap := (processEntity_frame env fuel s i).1
        cases hpo : (processEntity env fuel s i).2.2 with
        | none => exact hpe
        | some b =>
            cases b with
            | true => exact hpe
            | false =>
                refine okDelta_append _ _ _ _ _ hpe
                  (ih (processEntity env fuel s i).1 ?_ ?_)
                · rw [hmap]; exact hN
                · intro j hj
                  have hll := congrArg List.length hmap
                  simp only [List.length_map] at hll
                  rw [hll]
                  exact hlen j (List.mem_cons_of_mem _ hj)

theorem persistStatusAt_drop (δ : List Event) (n j : Nat) (nm : String) :
    persistStatusAt (δ.drop n) j nm = persistStatusAt δ (n + j) nm := by
  simp only [persistStatusAt, List.get?_eq_getElem?, List.getElem?_drop]

theorem runExtraction_okDelta (env : Env) (fuel : Nat) (m0 : Manifest)
    (hU : ∀ k, env.unexpected k = none)
    (hN : ((enumPhase env m0).1.tables.map TableEntry.name).Nodup) :
    okDelta m0.tables (runExtraction env fuel m0).trace
      (runExtraction env fuel m0).manifest.tables := by
  have hen : okDelta m0.tables (enumPhase env m0).2 (enumPhase env m0).1.tables := by
    simp only [enumPhase]
    by_cases h0 : m0.tables.length = 0
    · rw [if_pos h0]
      have hnil : m0.tables = [] := List.length_eq_zero.mp h0
      simp only [persistM]
      refine ⟨?_, presTerm_refl _⟩
      intro nm st _ hst
      rw [hnil] at hst
      exact absurd hst (by simp [statusByName])
    · rw [if_neg h0]
      exact okDelta_refl _
  have hpt := processTables_okDelta env fuel hU
    (List.range (enumPhase env m0).1.tables.length)
    { manifest := (enumPhase env m0).1, ctr := initCtr }
    hN (fun j hj => List.mem_range.mp hj)
  cases hr : (processTables env fuel
      { manifest := (enumPhase env m0).1, ctr := initCtr }
      (List.range (enumPhase env m0).1.tables.length)).2.2 with
  | none =>
      have he1 : (runExtraction env fuel m0).trace =
          (enumPhase env m0).2 ++ (processTables env fuel
            { manifest := (enumPhase env m0).1, ctr := initCtr }
            (List.range (enumPhase env m0).1.tables.length)).2.1 := by
        simp only [runExtraction, hr]
      have he2 : (runExtraction env fuel m0).manifest =
          (processTables env fuel
            { manifest := (enumPhase env m0).1, ctr := initCtr }
            (List.range (enumPhase env m0).1.tables.length)).1.manifest := by
        simp only [runExtraction, hr]
      rw [he1, he2]
      exact okDelta_append _ _ _ _ _ hen hpt
  | some b =>
      cases b with
      | true =>
          have he1 : (runExtraction env fuel m0).trace =
              (enumPhase env m0).2 ++ (processTables env fuel
                { manifest := (enumPhase env m0).1, ctr := initCtr }
                (List.range (enumPhase env m0).1.tables.length)).2.1 := by
            simp only [runExtraction, hr]
          have he2 : (runExtraction env fuel m0).manifest =
              (processTables env fuel
                { manifest := (enumPhase env m0).1, ctr := initCtr }
                (List.range (enumPhase env m0).1.tables.length)).1.manifest := by
            simp only [runExtraction, hr]
          rw [he1, he2]
          exact okDelta_append _ _ _ _ _ hen hpt
      | false =>
          have he1 : (runExtraction env fuel m0).trace =
              ((enumPhase env m0).2 ++ (processTables env fuel
                { manifest := (enumPhase env m0).1, ctr := initCtr }
                (List.range (enumPhase env m0).1.tables.length)).2.1) ++
              [Event.disconnect] := by
            simp only [runExtraction, hr]
          have he2 : (runExtraction env fuel m0).manifest =
              (processTables env fuel
                { manifest := (enumPhase env m0).1, ctr := initCtr }
                (List.range (enumPhase env m0).1.tables.length)).1.manifest := by
            simp only [runExtraction, hr]
          rw [he1, he2]
          refine okDelta_append _ _ _ _ _ (okDelta_append _ _ _ _ _ hen hpt) ?_
          exact presTerm_refl _

/-- C9 (amended): provided no unclassified exception fires outside the
three phases (`env.unexpected` always `none`) and the enumerated names
are distinct, a terminal status is never re-entered within a run: once
a persisted manifest (trace position `k`) shows entity `nm` at a
terminal status `st`, the final manifest still shows `st`, every later
persisted manifest shows `st` (or is not a persist), and no later
phase event is emitted for `nm`.  The unexpected-exception proviso is
necessary: `c9_counterexample` shows the catch-all handler dragging a
persisted `validated` entity back to `failed` and `skipped`. -/
theorem c9_terminal_amended (env : Env) (fuel : Nat) (m0 : Manifest)
    (hU : ∀ k, env.unexpected k = none)
    (hN : ((enumPhase env m0).1.tables.map TableEntry.name).Nodup)
    (nm : String) (st : ProcessingStatus) (k : Nat)
    (hts : termStatus st)
    (hk : persistStatusAt (runExtraction env fuel m0).trace k nm = some st) :
    statusByName (runExtraction env fuel m0).manifest.tables nm = some st ∧
    (∀ j, k < j →
      persistStatusAt (runExtraction env fuel m0).trace j nm = none ∨
      persistStatusAt (runExtraction env fuel m0).trace j nm = some st) ∧
    (∀ j ph, k < j →
      (runExtraction env fuel m0).trace.get? j ≠ some (Event.phase nm ph)) := by
  have hok := runExtraction_okDelta env fuel m0 hU hN
  have hg : ∃ mk, (runExtraction env fuel m0).trace.get? k =
      some (Event.persist mk) ∧ statusByName mk.tables nm = some st := by
    revert hk
    unfold persistStatusAt
    cases hge : (runExtraction env fuel m0).trace.get? k with
    | none => intro hk; exact absurd hk (by simp)
    | some ev =>
        cases ev with
        | persist mk => intro hk; exact ⟨mk, rfl, hk⟩
        | phase a b => intro hk; exact absurd hk (by simp)
        | failureCall r => intro hk; exact absurd hk (by simp)
        | decision d => intro hk; exact absurd hk (by simp)
        | disconnect => intro hk; exact absurd hk (by simp)
  obtain ⟨mk, hg, hkst⟩ := hg
  have hafter := okDelta_after _ _ _ k mk hok hg
  have hprop := okDelta_terminal_propagates _ _ _ nm st hafter hts hkst
  refine ⟨hprop.1, fun j hj => ?_, fun j ph hj => ?_⟩
  · have hje : k + 1 + (j - (k + 1)) = j := by omega
    have hthis := hprop.2.1 (j - (k + 1))
    rw [persistStatusAt_drop, hje] at hthis
    exact hthis
  · have hje : k + 1 + (j - (k + 1)) = j := by omega
    have hconv : ((runExtraction env fuel m0).trace.drop (k + 1)).get?
        (j - (k + 1)) = (runExtraction env fuel m0).trace.get? j := by
      rw [List.get?_eq_getElem?, List.getElem?_drop, hje,
        ← List.get?_eq_getElem?]
    have hthis := hprop.2.2 (j - (k + 1)) ph
    rw [hconv] at hthis
    exact hthis

/-- Witness for `c9_terminal_amended`: in the benign one-table run the
manifest persisted at trace position 9 shows `T1` validated; the
amended theorem then yields that the final manifest still shows `T1`
validated. -/
theorem c9_terminal_amended_witness :
    (∀ k, envBase.unexpected k = none) ∧
    ((enumPhase envBase mEmpty).1.tables.map TableEntry.name).Nodup ∧
    termStatus ProcessingStatus.validated ∧
    persistStatusAt (runExtraction envBase 3 mEmpty).trace 9 "T1" =
      some ProcessingStatus.validated ∧
    statusByName (runExtraction envBase 3 mEmpty).manifest.tables "T1" =
      some ProcessingStatus.validated :=
  ⟨fun k => rfl, by decide, by decide, by decide,
    (c9_terminal_amended envBase 3 mEmpty (fun k => rfl) (by decide)
      "T1" ProcessingStatus.validated 9 (by decide) (by decide)).1⟩

end SageDataTools

